import Mathlib

/-!
# Verification of the cli.timetracker core

Shallow embedding of the authenticated key-value synchronization layer and
the time-tracking domain logic of `src/api.rs` and `src/commands.rs`.

JSON documents (`serde_json::Value`) are modelled by `Json` below, with
numbers modelled as integers (the program only ever stores `i64` timestamps
and strings; floating point is out of scope of the embedding).  The remote
key-value store is modelled as an association list from keys to the raw
string values it holds, together with a fault oracle that records, per key
and per operation, whether the transport returns a non-success status.
-/

/-- The logical JSON document type, modelling `serde_json::Value` with
numbers restricted to integers. -/
inductive Json where
  | null : Json
  | bool (b : Bool) : Json
  | num (n : Int) : Json
  | str (s : String) : Json
  | arr (items : List Json) : Json
  | obj (members : List (String × Json)) : Json

/-- Lower-case hexadecimal digit for a value below 16, as used by
`serde_json` when emitting `\u00XX` escapes. -/
def hexDigitChar (n : Nat) : Char :=
  if n < 10 then Char.ofNat (48 + n) else Char.ofNat (87 + n)

/-- Escaping of one character inside a JSON string literal, modelling
`serde_json`'s serializer: quote, backslash and the named control escapes
get two-character escapes, the remaining control characters become
`\u00XX`, everything else is emitted verbatim. -/
def escapeChar (c : Char) : List Char :=
  if c = '"' then ['\\', '"']
  else if c = '\\' then ['\\', '\\']
  else if c = '\x08' then ['\\', 'b']
  else if c = '\x09' then ['\\', 't']
  else if c = '\x0a' then ['\\', 'n']
  else if c = '\x0c' then ['\\', 'f']
  else if c = '\x0d' then ['\\', 'r']
  else if c.toNat < 32 then
    ['\\', 'u', '0', '0', hexDigitChar (c.toNat / 16), hexDigitChar (c.toNat % 16)]
  else [c]

/-- The characters of a serialized JSON string literal, quotes included. -/
def escapeString (s : String) : List Char :=
  '"' :: (s.data.map escapeChar).flatten ++ ['"']

/-- Decimal digits of a natural number, most significant first. -/
def natChars (n : Nat) : List Char :=
  if n = 0 then ['0']
  else (Nat.digits 10 n).reverse.map (fun d => Char.ofNat (48 + d))

/-- Decimal rendering of an integer, modelling `i64`'s `Display`. -/
def intChars (n : Int) : List Char :=
  if n < 0 then '-' :: natChars n.natAbs else natChars n.toNat

mutual

/-- Characters of the compact JSON serialization, modelling
`serde_json::to_string`. -/
def printChars : Json → List Char
  | .null => 'n' :: 'u' :: 'l' :: 'l' :: []
  | .bool true => 't' :: 'r' :: 'u' :: 'e' :: []
  | .bool false => 'f' :: 'a' :: 'l' :: 's' :: 'e' :: []
  | .num n => intChars n
  | .str s => escapeString s
  | .arr items => '[' :: printItems items ++ [']']
  | .obj members => '\x7b' :: printMembers members ++ ['\x7d']

/-- Characters of the elements of an array, separated by commas. -/
def printItems : List Json → List Char
  | [] => []
  | v :: vs => printChars v ++ printItemsTail vs

/-- Characters of the remaining elements of an array, each preceded by a
comma. -/
def printItemsTail : List Json → List Char
  | [] => []
  | v :: vs => ',' :: printChars v ++ printItemsTail vs

/-- Characters of the members of an object, separated by commas. -/
def printMembers : List (String × Json) → List Char
  | [] => []
  | m :: ms => escapeString m.1 ++ ':' :: printChars m.2 ++ printMembersTail ms

/-- Characters of the remaining members of an object, each preceded by a
comma. -/
def printMembersTail : List (String × Json) → List Char
  | [] => []
  | m :: ms => ',' :: (escapeString m.1 ++ ':' :: printChars m.2) ++ printMembersTail ms

end

/-- Compact JSON serialization, modelling `serde_json::to_string`. -/
def jsonToString (v : Json) : String :=
  ⟨printChars v⟩

/-- JSON insignificant whitespace. -/
def isJsonWs (c : Char) : Bool :=
  c = ' ' || c = '\x09' || c = '\x0a' || c = '\x0d'

/-- Drop leading JSON whitespace. -/
def skipWs : List Char → List Char
  | [] => []
  | c :: cs => if isJsonWs c then skipWs cs else c :: cs

/-- Value of a decimal digit character, if it is one. -/
def digitVal (c : Char) : Option Nat :=
  if 48 ≤ c.toNat && c.toNat ≤ 57 then some (c.toNat - 48) else none

/-- Value of a hexadecimal digit character, if it is one. -/
def hexVal (c : Char) : Option Nat :=
  if 48 ≤ c.toNat && c.toNat ≤ 57 then some (c.toNat - 48)
  else if 97 ≤ c.toNat && c.toNat ≤ 102 then some (c.toNat - 87)
  else if 65 ≤ c.toNat && c.toNat ≤ 70 then some (c.toNat - 55)
  else none

/-- Greedily consume decimal digits, extending the accumulator. -/
def parseDigits : List Char → Nat → Nat × List Char
  | [], acc => (acc, [])
  | c :: cs, acc =>
    match digitVal c with
    | some d => parseDigits cs (acc * 10 + d)
    | none => (acc, c :: cs)

/-- Parse a JSON number (integer fragment): an optional minus sign followed
by at least one digit. -/
def parseNumber : List Char → Option (Json × List Char)
  | [] => none
  | c :: cs =>
    if c = '-' then
      match cs with
      | [] => none
      | c' :: cs' =>
        match digitVal c' with
        | some d =>
          let p := parseDigits cs' d
          some (.num (-(p.1 : Int)), p.2)
        | none => none
    else
      match digitVal c with
      | some d =>
        let p := parseDigits cs d
        some (.num (p.1 : Int), p.2)
      | none => none

/-- Decoded character for a named two-character escape, modelling
`serde_json`'s escape table (without the `\uXXXX` form). -/
def escapeCode (e : Char) : Option Char :=
  if e = '"' then some '"'
  else if e = '\\' then some '\\'
  else if e = '/' then some '/'
  else if e = 'b' then some '\x08'
  else if e = 'f' then some '\x0c'
  else if e = 'n' then some '\x0a'
  else if e = 'r' then some '\x0d'
  else if e = 't' then some '\x09'
  else none

/-- Parse the body of a JSON string literal (the opening quote already
consumed), returning its characters and the input after the closing
quote.  Raw control characters are rejected, escapes are decoded; a
`\uXXXX` escape denoting a surrogate is rejected.  The fuel only serves
totality. -/
def parseStringBody : Nat → List Char → Option (List Char × List Char)
  | 0, _ => none
  | fuel + 1, input =>
    match input with
    | [] => none
    | c :: cs =>
      if c = '"' then some ([], cs)
      else if c = '\\' then
        match cs with
        | [] => none
        | e :: cs' =>
          if e = 'u' then
            match cs' with
            | h1 :: h2 :: h3 :: h4 :: cs'' =>
              match hexVal h1, hexVal h2, hexVal h3, hexVal h4 with
              | some a, some b, some c3, some d =>
                let n := ((a * 16 + b) * 16 + c3) * 16 + d
                if 55296 ≤ n && n < 57344 then none
                else (parseStringBody fuel cs'').map (fun p => (Char.ofNat n :: p.1, p.2))
              | _, _, _, _ => none
            | _ => none
          else
            match escapeCode e with
            | some d => (parseStringBody fuel cs').map (fun p => (d :: p.1, p.2))
            | none => none
      else if c.toNat < 32 then none
      else (parseStringBody fuel cs).map (fun p => (c :: p.1, p.2))

mutual

/-- Fuel-indexed recursive-descent parser for one JSON value, modelling
`serde_json::from_str`'s grammar on the integer fragment.  The fuel only
serves totality; it is threaded so that one unit is spent on every
recursive step. -/
def parseValue : Nat → List Char → Option (Json × List Char)
  | 0, _ => none
  | fuel + 1, cs =>
    match skipWs cs with
    | [] => none
    | c :: cs' =>
      if c = 'n' then
        if cs'.take 3 = ['u', 'l', 'l'] then some (.null, cs'.drop 3) else none
      else if c = 't' then
        if cs'.take 3 = ['r', 'u', 'e'] then some (.bool true, cs'.drop 3) else none
      else if c = 'f' then
        if cs'.take 4 = ['a', 'l', 's', 'e'] then some (.bool false, cs'.drop 4) else none
      else if c = '"' then
        (parseStringBody (cs'.length + 1) cs').map (fun p => (.str ⟨p.1⟩, p.2))
      else if c = '[' then
        (parseItems fuel cs').map (fun p => (.arr p.1, p.2))
      else if c = '\x7b' then
        (parseMembers fuel cs').map (fun p => (.obj p.1, p.2))
      else if c = '-' || (digitVal c).isSome then
        parseNumber (c :: cs')
      else none

/-- Parse the items of an array, the opening bracket already consumed. -/
def parseItems : Nat → List Char → Option (List Json × List Char)
  | 0, _ => none
  | fuel + 1, cs =>
    match skipWs cs with
    | [] => none
    | c :: cs' =>
      if c = ']' then some ([], cs')
      else
        match parseValue fuel (c :: cs') with
        | none => none
        | some (v, r) =>
          match parseItemsTail fuel r with
          | none => none
          | some (vs, r') => some (v :: vs, r')

/-- Parse the remainder of an array after at least one item. -/
def parseItemsTail : Nat → List Char → Option (List Json × List Char)
  | 0, _ => none
  | fuel + 1, cs =>
    match skipWs cs with
    | [] => none
    | c :: cs' =>
      if c = ']' then some ([], cs')
      else if c = ',' then
        match parseValue fuel cs' with
        | none => none
        | some (v, r) =>
          match parseItemsTail fuel r with
          | none => none
          | some (vs, r') => some (v :: vs, r')
      else none

/-- Parse the members of an object, the opening brace already consumed. -/
def parseMembers : Nat → List Char → Option (List (String × Json) × List Char)
  | 0, _ => none
  | fuel + 1, cs =>
    match skipWs cs with
    | [] => none
    | c :: cs' =>
      if c = '\x7d' then some ([], cs')
      else if c = '"' then
        match parseStringBody (cs'.length + 1) cs' with
        | none => none
        | some (k, r) =>
          match skipWs r with
          | ':' :: r' =>
            match parseValue fuel r' with
            | none => none
            | some (v, r2) =>
              match parseMembersTail fuel r2 with
              | none => none
              | some (ms, r3) => some ((⟨k⟩, v) :: ms, r3)
          | _ => none
      else none

/-- Parse the remainder of an object after at least one member. -/
def parseMembersTail : Nat → List Char → Option (List (String × Json) × List Char)
  | 0, _ => none
  | fuel + 1, cs =>
    match skipWs cs with
    | [] => none
    | c :: cs' =>
      if c = '\x7d' then some ([], cs')
      else if c = ',' then
        match skipWs cs' with
        | '"' :: r =>
          match parseStringBody (r.length + 1) r with
          | none => none
          | some (k, r1) =>
            match skipWs r1 with
            | ':' :: r2 =>
              match parseValue fuel r2 with
              | none => none
              | some (v, r3) =>
                match parseMembersTail fuel r3 with
                | none => none
                | some (ms, r4) => some ((⟨k⟩, v) :: ms, r4)
            | _ => none
        | _ => none
      else none

end

/-- Whole-string JSON parse, modelling `serde_json::from_str`: the value
may be surrounded by whitespace and nothing else may follow it. -/
def jsonParse (s : String) : Option Json :=
  match parseValue (s.length + 1) s.data with
  | some (v, rest) => if skipWs rest = [] then some v else none
  | none => none

/-- A character position at which a greedy number parse must stop: the
input is exhausted or the next character is not a digit. -/
def numberStop (cs : List Char) : Prop :=
  ∀ c, cs.head? = some c → digitVal c = none

mutual

/-- Fuel bound sufficient for `parseValue` to reparse a printed value. -/
def jweight : Json → Nat
  | .null => 1
  | .bool _ => 1
  | .num _ => 1
  | .str _ => 1
  | .arr items => 1 + jweightItems items
  | .obj members => 1 + jweightMembers members

/-- Fuel bound sufficient for `parseItems`/`parseItemsTail` on a printed
item list. -/
def jweightItems : List Json → Nat
  | [] => 1
  | v :: vs => 1 + max (jweight v) (jweightItems vs)

/-- Fuel bound sufficient for `parseMembers`/`parseMembersTail` on a
printed member list. -/
def jweightMembers : List (String × Json) → Nat
  | [] => 1
  | m :: ms => 1 + max (jweight m.2) (jweightMembers ms)

end

/-- Read-side decoding of a stored value, embedding the match in
`ApiClient::get_key` (src/api.rs:204-214): a string value is parsed as
JSON, falling back to the raw value when parsing fails; non-string values
are returned as-is. -/
def decodeValue (v : Json) : Json :=
  match v with
  | .str s =>
    match jsonParse s with
    | some parsed => parsed
    | none => v
  | _ => v

/-- A project record, embedding `Project` (src/api.rs:52-57). -/
structure Project where
  name : String
  slug : String
  description : String
deriving DecidableEq

/-- A time entry, embedding `TimeEntry` (src/api.rs:59-65); `entry_type`
is the field serialized as `type`. -/
structure TimeEntry where
  timestamp : Int
  entry_type : String
  description : Option String
deriving DecidableEq

/-- Last-wins field lookup in an object, modelling access to
`serde_json`'s object map. -/
def jLookup (ms : List (String × Json)) (k : String) : Option Json :=
  (ms.reverse.find? (fun m => m.1 == k)).map (fun m => m.2)

/-- Serialization of a project, modelling `serde_json::to_value` for
`Project` (keys in the sorted order of `serde_json`'s map). -/
def projectToJson (p : Project) : Json :=
  .obj [("description", .str p.description), ("name", .str p.name), ("slug", .str p.slug)]

/-- Deserialization of a project, modelling `serde_json::from_value` for
`Project`: all three fields must be strings; unknown fields are ignored. -/
def projectFromJson (v : Json) : Option Project :=
  match v with
  | .obj ms =>
    match jLookup ms "name", jLookup ms "slug", jLookup ms "description" with
    | some (.str name), some (.str slug), some (.str description) =>
      some ⟨name, slug, description⟩
    | _, _, _ => none
  | _ => none

/-- Serialization of the projects list, modelling `serde_json::to_value`
for `Vec<Project>`. -/
def projectsToJson (ps : List Project) : Json :=
  .arr (ps.map projectToJson)

/-- Element-wise decoding of a JSON array's items, modelling
`serde_json::from_value` for `Vec<T>`: every element must decode. -/
def decodeElems {α : Type} (f : Json → Option α) : List Json → Option (List α)
  | [] => some []
  | v :: vs =>
    match f v, decodeElems f vs with
    | some a, some as => some (a :: as)
    | _, _ => none

/-- Deserialization of the projects list, modelling
`serde_json::from_value` for `Vec<Project>`. -/
def projectsFromJson (v : Json) : Option (List Project) :=
  match v with
  | .arr items => decodeElems projectFromJson items
  | _ => none

/-- Serialization of a time entry, modelling `serde_json::to_value` for
`TimeEntry`: `description` is `null` when absent, `entry_type` is emitted
under the key `type`. -/
def timeEntryToJson (e : TimeEntry) : Json :=
  .obj [("description", match e.description with | some d => .str d | none => .null),
        ("timestamp", .num e.timestamp), ("type", .str e.entry_type)]

/-- Deserialization of a time entry, modelling `serde_json::from_value`
for `TimeEntry`: a missing or null `description` becomes `none`. -/
def timeEntryFromJson (v : Json) : Option TimeEntry :=
  match v with
  | .obj ms =>
    match jLookup ms "timestamp", jLookup ms "type" with
    | some (.num timestamp), some (.str entry_type) =>
      match jLookup ms "description" with
      | some (.str d) => some ⟨timestamp, entry_type, some d⟩
      | some .null => some ⟨timestamp, entry_type, none⟩
      | none => some ⟨timestamp, entry_type, none⟩
      | some _ => none
    | _, _ => none
  | _ => none

/-- Serialization of an entry list, modelling `serde_json::to_value` for
`Vec<TimeEntry>`. -/
def entriesToJson (es : List TimeEntry) : Json :=
  .arr (es.map timeEntryToJson)

/-- Deserialization of an entry list, modelling `serde_json::from_value`
for `Vec<TimeEntry>`. -/
def entriesFromJson (v : Json) : Option (List TimeEntry) :=
  match v with
  | .arr items => decodeElems timeEntryFromJson items
  | _ => none

/-- Stable insertion of an entry into a list sorted ascending by
timestamp: the new entry goes before the first strictly later entry and
after earlier entries with the same timestamp. -/
def insertByTimestamp (e : TimeEntry) : List TimeEntry → List TimeEntry
  | [] => [e]
  | x :: xs =>
    if e.timestamp ≤ x.timestamp then e :: x :: xs else x :: insertByTimestamp e xs

/-- Stable ascending sort by timestamp, embedding
`sorted_entries.sort_by_key(|e| e.timestamp)` (Rust's `sort_by_key` is a
stable ascending sort, and a stable sort is unique). -/
def sortByTimestamp (entries : List TimeEntry) : List TimeEntry :=
  entries.foldr insertByTimestamp []

/-- The scan of `calculate_total_time` (src/commands.rs:275-288): a
`"start"` records (and overwrites) the pending start, an `"end"` with a
pending start adds the difference and clears it, anything else is
ignored. -/
def totalLoop : List TimeEntry → Option Int → Int → Int
  | [], _, total => total
  | e :: es, start_time, total =>
    if e.entry_type = "start" then totalLoop es (some e.timestamp) total
    else if e.entry_type = "end" then
      match start_time with
      | some start => totalLoop es none (total + (e.timestamp - start))
      | none => totalLoop es none total
    else totalLoop es start_time total

/-- Embedding of `calculate_total_time` (src/commands.rs:267-291): sort
ascending by timestamp, then scan once. -/
def calculate_total_time (entries : List TimeEntry) : Int :=
  totalLoop (sortByTimestamp entries) none 0

/-- Embedding of `is_project_running` (src/commands.rs:293-307): empty
list gives false, otherwise the type of the last entry after the
ascending sort is compared with `"start"`. -/
def is_project_running (entries : List TimeEntry) : Bool :=
  if entries.isEmpty then false
  else
    match (sortByTimestamp entries).getLast? with
    | some last_entry => last_entry.entry_type == "start"
    | none => false

/-- Error taxonomy of the core (src/api.rs uses `anyhow` message strings;
each constructor embeds one of the distinct messages). `wrapped` embeds
re-wrapping an error with a context message, as in
`anyhow!("Failed to delete time entries ...: {}", e)`. -/
inductive Err where
  | notAuthenticated : Err
  | authenticationFailed (status : Nat) : Err
  | apiError (op : String) (status : Nat) : Err
  | notFound (what : String) : Err
  | duplicateSlug (slug : String) : Err
  | deserializationError : Err
  | wrapped (context : String) (inner : Err) : Err
deriving DecidableEq

/-- Whether the rendered message of an error contains "404", embedding the
`e.to_string().contains("404")` checks: `delete_key`'s message embeds the
HTTP status, and a three-digit status renders "404" exactly when it is
404. -/
def mentions404 : Err → Bool
  | .apiError _ status => status == 404
  | .authenticationFailed status => status == 404
  | .wrapped _ inner => mentions404 inner
  | _ => false

/-- The remote store's visible state: the keys present, each holding the
raw string value transmitted for it (the server stores values verbatim;
§6 of the spec). -/
abbrev Store : Type := List (String × String)

/-- Value of a key in the store. -/
def storeGet : Store → String → Option String
  | [], _ => none
  | p :: st, k => if p.1 == k then some p.2 else storeGet st k

/-- Overwrite-or-append a key's value. -/
def storeSet : Store → String → String → Store
  | [], k, v => [(k, v)]
  | p :: st, k, v => if p.1 == k then (k, v) :: st else p :: storeSet st k v

/-- Remove a key. -/
def storeErase : Store → String → Store
  | [], _ => []
  | p :: st, k => if p.1 == k then storeErase st k else p :: storeErase st k

/-- Fault oracle: for each operation and key, the non-2xx HTTP status the
transport reports, if any (`none` means the transport succeeds against the
store's current state). -/
structure Faults where
  getF : String → Option Nat
  setF : String → Option Nat
  updateF : String → Option Nat
  deleteF : String → Option Nat

/-- The fault-free transport. -/
def noFaults : Faults :=
  ⟨fun _ => none, fun _ => none, fun _ => none, fun _ => none⟩

/-- Embedding of `ApiClient::get_key` (src/api.rs:190-221): on success the
stored string value is decoded with `decodeValue`; a 404 yields the empty
array; any other non-2xx status is an API error carrying the status.  A
missing key is a 404 from an honest server. -/
def get_key (f : Faults) (st : Store) (key : String) : Except Err Json :=
  match f.getF key with
  | some status =>
    if status == 404 then .ok (.arr []) else .error (.apiError "get" status)
  | none =>
    match storeGet st key with
    | some s => .ok (decodeValue (.str s))
    | none => .ok (.arr [])

/-- Embedding of `ApiClient::set_key` (src/api.rs:223-246): serializes the
value to a JSON string and creates the key; non-2xx is an API error and
nothing is stored. -/
def set_key (f : Faults) (st : Store) (key : String) (value : Json) :
    Except Err Unit × Store :=
  match f.setF key with
  | some status => (.error (.apiError "set" status), st)
  | none => (.ok (), storeSet st key (jsonToString value))

/-- Embedding of `ApiClient::update_key` (src/api.rs:248-271): serializes
the value to a JSON string and replaces the key's value; non-2xx is an API
error and nothing is stored. -/
def update_key (f : Faults) (st : Store) (key : String) (value : Json) :
    Except Err Unit × Store :=
  match f.updateF key with
  | some status => (.error (.apiError "update" status), st)
  | none => (.ok (), storeSet st key (jsonToString value))

/-- Embedding of `ApiClient::delete_key` (src/api.rs:388-404): non-2xx is
an API error; deleting an absent key is a 404 from an honest server. -/
def delete_key (f : Faults) (st : Store) (key : String) :
    Except Err Unit × Store :=
  match f.deleteF key with
  | some status => (.error (.apiError "delete" status), st)
  | none =>
    if (storeGet st key).isSome then (.ok (), storeErase st key)
    else (.error (.apiError "delete" 404), st)

/-- Embedding of `ApiClient::get_projects` (src/api.rs:273-277). -/
def get_projects (f : Faults) (st : Store) : Except Err (List Project) :=
  match get_key f st "projects" with
  | .error e => .error e
  | .ok v =>
    match projectsFromJson v with
    | some ps => .ok ps
    | none => .error .deserializationError

/-- The per-project time-entry key, embedding
`format!("projects/{}", slug)`. -/
def timeKey (slug : String) : String :=
  "projects/" ++ slug

/-- Embedding of `ApiClient::get_time_entries` (src/api.rs:348-353). -/
def get_time_entries (f : Faults) (st : Store) (project_slug : String) :
    Except Err (List TimeEntry) :=
  match get_key f st (timeKey project_slug) with
  | .error e => .error e
  | .ok v =>
    match entriesFromJson v with
    | some es => .ok es
    | none => .error .deserializationError

/-- Embedding of `ApiClient::add_project` (src/api.rs:287-305): the read
uses `.unwrap_or_default()` (a failed read becomes the empty list); a
duplicate slug is rejected; `set_key` is used exactly when the list was
empty before the append, `update_key` otherwise. -/
def add_project (f : Faults) (st : Store) (project : Project) :
    Except Err Unit × Store :=
  let projects := match get_projects f st with | .ok ps => ps | .error _ => []
  if projects.any (fun p => p.slug == project.slug) then
    (.error (.duplicateSlug project.slug), st)
  else
    let projects := projects ++ [project]
    let is_first_project := projects.length == 1
    let value := projectsToJson projects
    if is_first_project then set_key f st "projects" value
    else update_key f st "projects" value

/-- Embedding of `ApiClient::update_project` (src/api.rs:307-346).  The
migration block runs only when the slug changes: a collision of the new
slug with a different project is rejected; the old key's entries are
read (a failed read silently skips the migration), and when non-empty
they are written under the new key with `set_key` and the old key is
deleted (tolerating a 404).  The projects list is replaced at the found
index and written last with `update_key`. -/
def update_project (f : Faults) (st : Store) (old_slug : String)
    (updated_project : Project) : Except Err Unit × Store :=
  let projects := match get_projects f st with | .ok ps => ps | .error _ => []
  match projects.findIdx? (fun p => p.slug == old_slug) with
  | none => (.error (.notFound old_slug), st)
  | some project_index =>
    let migrated : Except Err Unit × Store :=
      if old_slug = updated_project.slug then (.ok (), st)
      else if projects.enum.any (fun ip =>
          ip.1 != project_index && ip.2.slug == updated_project.slug) then
        (.error (.duplicateSlug updated_project.slug), st)
      else
        match get_time_entries f st old_slug with
        | .error _ => (.ok (), st)
        | .ok time_entries =>
          if time_entries.isEmpty then (.ok (), st)
          else
            match set_key f st (timeKey updated_project.slug) (entriesToJson time_entries) with
            | (.error e, st1) => (.error e, st1)
            | (.ok _, st1) =>
              match delete_key f st1 (timeKey old_slug) with
              | (.error e, st2) =>
                if mentions404 e then (.ok (), st2)
                else (.error (.wrapped "Failed to delete old time entries" e), st2)
              | (.ok _, st2) => (.ok (), st2)
    match migrated with
    | (.error e, st') => (.error e, st')
    | (.ok _, st') =>
      let projects2 := projects.set project_index updated_project
      update_key f st' "projects" (projectsToJson projects2)

/-- Embedding of `ApiClient::add_time_entry` (src/api.rs:355-368): the
read uses `.unwrap_or_default()`; `set_key` is used exactly when the
appended entry is the first. -/
def add_time_entry (f : Faults) (st : Store) (project_slug : String)
    (entry : TimeEntry) : Except Err Unit × Store :=
  let entries := match get_time_entries f st project_slug with | .ok es => es | .error _ => []
  let entries := entries ++ [entry]
  let is_first_entry := entries.length == 1
  let value := entriesToJson entries
  if is_first_entry then set_key f st (timeKey project_slug) value
  else update_key f st (timeKey project_slug) value

/-- Embedding of `ApiClient::delete_project` (src/api.rs:406-432): the
project is removed from the list by `retain`; an absent slug is
`NotFound`; the time-entry key is deleted first (404 tolerated, any
other failure re-wrapped); the filtered list is written last via
`update_key`. -/
def delete_project (f : Faults) (st : Store) (project_slug : String) :
    Except Err Unit × Store :=
  let projects := match get_projects f st with | .ok ps => ps | .error _ => []
  let remaining := projects.filter (fun p => p.slug != project_slug)
  if remaining.length == projects.length then
    (.error (.notFound project_slug), st)
  else
    match delete_key f st (timeKey project_slug) with
    | (.error e, st1) =>
      if mentions404 e then update_key f st1 "projects" (projectsToJson remaining)
      else (.error (.wrapped "Failed to delete time entries" e), st1)
    | (.ok _, st1) => update_key f st1 "projects" (projectsToJson remaining)

/-- Embedding of `ApiClient::delete_time_entry_by_timestamp`
(src/api.rs:439-454): `retain` drops every entry with the given
timestamp; no match is `NotFound` (and nothing is written); otherwise the
filtered list is written back via `update_key`. -/
def delete_time_entry_by_timestamp (f : Faults) (st : Store)
    (project_slug : String) (timestamp : Int) : Except Err Unit × Store :=
  let entries := match get_time_entries f st project_slug with | .ok es => es | .error _ => []
  let remaining := entries.filter (fun e => e.timestamp != timestamp)
  if remaining.length == entries.length then
    (.error (.notFound project_slug), st)
  else update_key f st (timeKey project_slug) (entriesToJson remaining)

/-- The in-memory edit of `update_time_entry_by_timestamp`'s loop
(src/api.rs:461-468): replace the description of the first entry whose
timestamp matches; `none` when no entry matches. -/
def setFirstDescription : List TimeEntry → Int → Option String →
    Option (List TimeEntry)
  | [], _, _ => none
  | e :: es, timestamp, new_description =>
    if e.timestamp = timestamp then
      some ({ e with description := new_description } :: es)
    else
      match setFirstDescription es timestamp new_description with
      | some es' => some (e :: es')
      | none => none

/-- Embedding of `ApiClient::update_time_entry_by_timestamp`
(src/api.rs:456-477): the first matching entry's description is replaced
and the whole list written back; no match is `NotFound` (and nothing is
written). -/
def update_time_entry_by_timestamp (f : Faults) (st : Store)
    (project_slug : String) (timestamp : Int) (new_description : Option String) :
    Except Err Unit × Store :=
  let entries := match get_time_entries f st project_slug with | .ok es => es | .error _ => []
  match setFirstDescription entries timestamp new_description with
  | none => (.error (.notFound project_slug), st)
  | some entries' => update_key f st (timeKey project_slug) (entriesToJson entries')

/-- The persisted token-cache record, embedding `TokenCache`
(src/api.rs:19-23).  The expiry instant is modelled as an integer point
on the time axis (`chrono::DateTime<Utc>` is external to the repository;
only its total order is used by the code). -/
structure TokenCacheFile where
  token : String
  expires_at : Int
deriving DecidableEq

/-- Deserialization of the cache file, modelling
`serde_json::from_str::<TokenCache>`: both fields must be present, the
expiry being a (modelled) time point. -/
def tokenCacheFromJson (v : Json) : Option TokenCacheFile :=
  match v with
  | .obj ms =>
    match jLookup ms "token", jLookup ms "expires_at" with
    | some (.str token), some (.num expires_at) => some ⟨token, expires_at⟩
    | _, _ => none
  | _ => none

/-- Embedding of `ApiClient::load_cached_token` (src/api.rs:107-117):
`file_content` is the result of `fs::read_to_string` (`none` when the
read fails), `now` the current instant.  The token is returned only when
the file read succeeds, the content parses, and the stored expiry is
strictly in the future; every failure yields `none`. -/
def load_cached_token (file_content : Option String) (now : Int) : Option String :=
  match file_content with
  | none => none
  | some content =>
    match (jsonParse content).bind tokenCacheFromJson with
    | none => none
    | some cache => if now < cache.expires_at then some cache.token else none

/-- A transport that reports 404 on every `get`. -/
def faultsGet404 : Faults :=
  ⟨fun _ => some 404, fun _ => none, fun _ => none, fun _ => none⟩

/-- A transport that reports 500 on every `get`. -/
def faultsGet500 : Faults :=
  ⟨fun _ => some 500, fun _ => none, fun _ => none, fun _ => none⟩

/-- A transport that refuses every `set` with status 500. -/
def faultsSet500 : Faults :=
  ⟨fun _ => none, fun _ => some 500, fun _ => none, fun _ => none⟩

theorem numberStop_nil : numberStop [] := by
  intro c h
  simp at h

theorem numberStop_cons {c : Char} (h : digitVal c = none) (cs : List Char) :
    numberStop (c :: cs) := by
  intro c' h'
  simp at h'
  exact h' ▸ h

theorem char_ne_of_toNat_ne {c d : Char} (h : c.toNat ≠ d.toNat) : c ≠ d :=
  fun hc => h (by rw [hc])

theorem skipWs_not_ws {c : Char} (h : isJsonWs c = false) (cs : List Char) :
    skipWs (c :: cs) = c :: cs := by
  simp [skipWs, h]

theorem hexVal_hexDigitChar : ∀ m < 16, hexVal (hexDigitChar m) = some m := by
  decide

theorem digitVal_char : ∀ d < 10, digitVal (Char.ofNat (48 + d)) = some d := by
  decide

theorem digit_char_ne_minus : ∀ d < 10, Char.ofNat (48 + d) ≠ '-' := by
  decide

/-- Every escape sequence is at least one character long. -/
theorem one_le_length_escapeChar (c : Char) : 1 ≤ (escapeChar c).length := by
  unfold escapeChar
  repeat' split
  all_goals simp

/-- An escaped body is at least as long as the source characters. -/
theorem length_le_flatten_escape (l : List Char) :
    l.length ≤ ((l.map escapeChar).flatten).length := by
  induction l with
  | nil => simp
  | cons c l ih =>
    have := one_le_length_escapeChar c
    simp only [List.map_cons, List.flatten_cons, List.length_append, List.length_cons]
    omega

/-- Parsing the escape sequence of one character consumes exactly it. -/
theorem parseStringBody_escapeChar (c : Char) (rest : List Char) (fuel : Nat) :
    parseStringBody (fuel + 1) (escapeChar c ++ rest) =
      (parseStringBody fuel rest).map (fun p => (c :: p.1, p.2)) := by
  by_cases h1 : c = '"'
  · subst h1; simp [escapeChar, parseStringBody, escapeCode]
  by_cases h2 : c = '\\'
  · subst h2; simp [escapeChar, parseStringBody, escapeCode]
  by_cases h3 : c = '\x08'
  · subst h3; simp [escapeChar, parseStringBody, escapeCode]
  by_cases h4 : c = '\x09'
  · subst h4; simp [escapeChar, parseStringBody, escapeCode]
  by_cases h5 : c = '\x0a'
  · subst h5; simp [escapeChar, parseStringBody, escapeCode]
  by_cases h6 : c = '\x0c'
  · subst h6; simp [escapeChar, parseStringBody, escapeCode]
  by_cases h7 : c = '\x0d'
  · subst h7; simp [escapeChar, parseStringBody, escapeCode]
  by_cases h8 : c.toNat < 32
  · have hdiv : c.toNat / 16 < 16 := by omega
    have hmod : c.toNat % 16 < 16 := Nat.mod_lt _ (by omega)
    have e1 := hexVal_hexDigitChar _ hdiv
    have e2 := hexVal_hexDigitChar _ hmod
    simp only [escapeChar, h1, h2, h3, h4, h5, h6, h7, h8, if_true, if_false,
      ite_true, ite_false, List.cons_append, List.nil_append]
    simp [parseStringBody, e1, e2, (by decide : hexVal '0' = some 0)]
    have hmn : c.toNat / 16 * 16 + c.toNat % 16 = c.toNat := by omega
    rw [hmn, Char.ofNat_toNat, if_neg (by omega)]
  · have h9 : ¬ c.toNat < 32 := h8
    simp only [escapeChar, h1, h2, h3, h4, h5, h6, h7, h8, if_false, ite_false,
      List.cons_append, List.nil_append]
    simp [parseStringBody, h1, h2, h9]

/-- Parsing the escaped body of a string consumes exactly the body and the
closing quote. -/
theorem parseStringBody_escape (l : List Char) (rest : List Char) (fuel : Nat)
    (h : l.length < fuel) :
    parseStringBody fuel ((l.map escapeChar).flatten ++ '"' :: rest) = some (l, rest) := by
  induction l generalizing fuel with
  | nil =>
    obtain ⟨f, rfl⟩ : ∃ f, fuel = f + 1 := ⟨fuel - 1, by omega⟩
    simp [parseStringBody]
  | cons c l ih =>
    obtain ⟨f, rfl⟩ : ∃ f, fuel = f + 1 := ⟨fuel - 1, by omega⟩
    simp only [List.map_cons, List.flatten_cons, List.append_assoc]
    rw [parseStringBody_escapeChar, ih f (by simp at h; omega)]
    rfl

theorem parseDigits_stop (cs : List Char) (acc : Nat) (h : numberStop cs) :
    parseDigits cs acc = (acc, cs) := by
  cases cs with
  | nil => rfl
  | cons c cs => simp [parseDigits, h c rfl]

theorem parseDigits_run (ds : List Nat) (hds : ∀ d ∈ ds, d < 10) (acc : Nat)
    (rest : List Char) (hrest : numberStop rest) :
    parseDigits (ds.map (fun d => Char.ofNat (48 + d)) ++ rest) acc
      = (acc * 10 ^ ds.length + Nat.ofDigits 10 ds.reverse, rest) := by
  induction ds generalizing acc with
  | nil => simpa using parseDigits_stop rest acc hrest
  | cons d ds ih =>
    have hd : d < 10 := hds d (by simp)
    have e := digitVal_char d hd
    simp only [List.map_cons, List.cons_append, parseDigits, e, List.append_eq]
    rw [ih (fun x hx => hds x (by simp [hx])) (acc * 10 + d)]
    congr 1
    rw [List.reverse_cons, Nat.ofDigits_append]
    simp only [Nat.ofDigits_singleton, List.length_reverse, List.length_cons, pow_succ]
    ring

theorem natChars_parse (n : Nat) (rest : List Char) (hrest : numberStop rest) :
    ∃ c cs d, natChars n ++ rest = c :: cs ∧ c ≠ '-' ∧ digitVal c = some d ∧
      parseDigits cs d = (n, rest) := by
  by_cases h0 : n = 0
  · subst h0
    exact ⟨'0', rest, 0, by simp [natChars], by decide, by decide,
      parseDigits_stop rest 0 hrest⟩
  · have hne : Nat.digits 10 n ≠ [] := Nat.digits_ne_nil_iff_ne_zero.mpr h0
    have hdsne : (Nat.digits 10 n).reverse ≠ [] := by simpa
    obtain ⟨d0, dt, hcons⟩ := List.exists_cons_of_ne_nil hdsne
    have hlt : ∀ d ∈ (Nat.digits 10 n).reverse, d < 10 := by
      intro d hd
      exact Nat.digits_lt_base (by norm_num) (List.mem_reverse.mp hd)
    have hd0 : d0 < 10 := hlt d0 (by simp [hcons])
    have hnat : natChars n
        = Char.ofNat (48 + d0) :: dt.map (fun d => Char.ofNat (48 + d)) := by
      simp [natChars, h0, hcons]
    refine ⟨Char.ofNat (48 + d0), dt.map (fun d => Char.ofNat (48 + d)) ++ rest, d0,
      by simp [hnat], digit_char_ne_minus d0 hd0, digitVal_char d0 hd0, ?_⟩
    rw [parseDigits_run dt (fun x hx => hlt x (by simp [hcons, hx])) d0 rest hrest]
    congr 1
    have hofd : Nat.ofDigits 10 (Nat.digits 10 n) = n := Nat.ofDigits_digits 10 n
    have hrev : Nat.digits 10 n = (d0 :: dt).reverse := by
      rw [← hcons]; simp
    rw [hrev, List.reverse_cons, Nat.ofDigits_append] at hofd
    rw [← hofd]
    simp only [Nat.ofDigits_singleton, List.length_reverse]
    ring

theorem parseNumber_intChars (n : Int) (rest : List Char) (hrest : numberStop rest) :
    parseNumber (intChars n ++ rest) = some (.num n, rest) := by
  by_cases hn : n < 0
  · obtain ⟨c, cs, d, hcons, hcne, hdv, hpd⟩ := natChars_parse n.natAbs rest hrest
    have habs : ((n.natAbs : Nat) : Int) = -n := by omega
    simp only [intChars, hn, ite_true, List.cons_append, parseNumber, if_pos rfl]
    rw [hcons]
    simp [hdv, hpd, habs]
  · obtain ⟨c, cs, d, hcons, hcne, hdv, hpd⟩ := natChars_parse n.toNat rest hrest
    have htn : ((n.toNat : Nat) : Int) = n := Int.toNat_of_nonneg (le_of_not_lt hn)
    simp only [intChars, hn, ite_false]
    rw [hcons]
    simp [parseNumber, hcne, hdv, hpd, htn]

theorem digitVal_bounds {c : Char} {d : Nat} (h : digitVal c = some d) :
    48 ≤ c.toNat ∧ c.toNat ≤ 57 := by
  simp only [digitVal] at h
  split at h
  · rename_i hcond
    simpa using hcond
  · simp at h

theorem isJsonWs_false_of_toNat {c : Char}
    (h : c.toNat ≠ 32 ∧ c.toNat ≠ 9 ∧ c.toNat ≠ 10 ∧ c.toNat ≠ 13) :
    isJsonWs c = false := by
  simp only [isJsonWs, Bool.or_eq_false_iff, decide_eq_false_iff_not]
  exact ⟨⟨⟨char_ne_of_toNat_ne h.1, char_ne_of_toNat_ne h.2.1⟩,
    char_ne_of_toNat_ne h.2.2.1⟩, char_ne_of_toNat_ne h.2.2.2⟩

theorem natChars_head (n : Nat) :
    ∃ c cs d, natChars n = c :: cs ∧ digitVal c = some d := by
  by_cases h0 : n = 0
  · exact ⟨'0', [], 0, by simp [natChars, h0], by decide⟩
  · have hdsne : (Nat.digits 10 n).reverse ≠ [] := by
      simpa using Nat.digits_ne_nil_iff_ne_zero.mpr h0
    obtain ⟨d0, dt, hcons⟩ := List.exists_cons_of_ne_nil hdsne
    have hmem : d0 ∈ (Nat.digits 10 n).reverse := by simp [hcons]
    have hd0 : d0 < 10 :=
      Nat.digits_lt_base (by norm_num) (List.mem_reverse.mp hmem)
    exact ⟨Char.ofNat (48 + d0), dt.map (fun d => Char.ofNat (48 + d)), d0,
      by simp [natChars, h0, hcons], digitVal_char d0 hd0⟩

/-- The first character of any printed JSON value: it is never whitespace,
never a closing bracket and never a comma. -/
theorem printChars_head (v : Json) :
    ∃ c cs, printChars v = c :: cs ∧ isJsonWs c = false ∧ c ≠ ']' ∧ c ≠ ',' := by
  cases v with
  | null => exact ⟨'n', ['u', 'l', 'l'], by simp [printChars], by decide, by decide, by decide⟩
  | bool b =>
    cases b with
    | true =>
      exact ⟨'t', ['r', 'u', 'e'], by simp [printChars], by decide, by decide, by decide⟩
    | false =>
      exact ⟨'f', ['a', 'l', 's', 'e'], by simp [printChars], by decide, by decide, by decide⟩
  | num n =>
    by_cases hn : n < 0
    · exact ⟨'-', natChars n.natAbs, by simp [printChars, intChars, hn],
        by decide, by decide, by decide⟩
    · obtain ⟨c, cs, d, hcons, hdv⟩ := natChars_head n.toNat
      obtain ⟨hlo, hhi⟩ := digitVal_bounds hdv
      exact ⟨c, cs, by simp [printChars, intChars, hn, hcons],
        isJsonWs_false_of_toNat (by omega),
        char_ne_of_toNat_ne (by intro hx; rw [hx] at hlo hhi; revert hlo hhi; decide),
        char_ne_of_toNat_ne (by intro hx; rw [hx] at hlo hhi; revert hlo hhi; decide)⟩
  | str s =>
    exact ⟨'"', (s.data.map escapeChar).flatten ++ ['"'],
      by simp [printChars, escapeString], by decide, by decide, by decide⟩
  | arr items =>
    exact ⟨'[', printItems items ++ [']'], by simp [printChars], by decide, by decide, by decide⟩
  | obj members =>
    exact ⟨'\x7b', printMembers members ++ ['\x7d'], by simp [printChars],
      by decide, by decide, by decide⟩

theorem one_le_jweight (v : Json) : 1 ≤ jweight v := by
  cases v <;> simp [jweight]

theorem numberStop_printItemsTail (vs : List Json) (rest : List Char) :
    numberStop (printItemsTail vs ++ ']' :: rest) := by
  cases vs with
  | nil => exact numberStop_cons (by decide) _
  | cons v vs =>
    rw [printItemsTail]
    exact numberStop_cons (by decide) _

theorem numberStop_printMembersTail (ms : List (String × Json)) (rest : List Char) :
    numberStop (printMembersTail ms ++ '\x7d' :: rest) := by
  cases ms with
  | nil => exact numberStop_cons (by decide) _
  | cons m ms =>
    rw [printMembersTail]
    exact numberStop_cons (by decide) _

theorem one_le_jweightItems (l : List Json) : 1 ≤ jweightItems l := by
  cases l <;> simp [jweightItems]

theorem one_le_jweightMembers (ms : List (String × Json)) : 1 ≤ jweightMembers ms := by
  cases ms <;> simp [jweightMembers]

mutual

/-- Reparsing a printed JSON value consumes exactly its characters. -/
theorem parseValue_print (v : Json) (fuel : Nat) (h : jweight v ≤ fuel) (rest : List Char)
    (hrest : numberStop rest) :
    parseValue fuel (printChars v ++ rest) = some (v, rest) := by
  obtain ⟨f, rfl⟩ : ∃ f, fuel = f + 1 := ⟨fuel - 1, by have := one_le_jweight v; omega⟩
  cases v with
  | null => simp [printChars, parseValue, skipWs, isJsonWs]
  | bool b => cases b <;> simp [printChars, parseValue, skipWs, isJsonWs]
  | num n =>
    by_cases hn : n < 0
    · have hshape : printChars (.num n) ++ rest = '-' :: (natChars n.natAbs ++ rest) := by
        simp [printChars, intChars, hn]
      have hnum : parseNumber ('-' :: (natChars n.natAbs ++ rest)) = some (.num n, rest) := by
        have hp := parseNumber_intChars n rest hrest
        rw [intChars, if_pos hn] at hp
        simpa using hp
      rw [hshape]
      simp only [parseValue]
      rw [skipWs_not_ws (by decide)]
      simp [hnum]
    · obtain ⟨c, cs, d, hcons, hdv⟩ := natChars_head n.toNat
      obtain ⟨hlo, hhi⟩ := digitVal_bounds hdv
      have hshape : printChars (.num n) ++ rest = c :: (cs ++ rest) := by
        simp [printChars, intChars, hn, hcons]
      have hne1 : c ≠ 'n' :=
        char_ne_of_toNat_ne (by intro hx; rw [hx] at hlo hhi; revert hlo hhi; decide)
      have hne2 : c ≠ 't' :=
        char_ne_of_toNat_ne (by intro hx; rw [hx] at hlo hhi; revert hlo hhi; decide)
      have hne3 : c ≠ 'f' :=
        char_ne_of_toNat_ne (by intro hx; rw [hx] at hlo hhi; revert hlo hhi; decide)
      have hne4 : c ≠ '"' :=
        char_ne_of_toNat_ne (by intro hx; rw [hx] at hlo hhi; revert hlo hhi; decide)
      have hne5 : c ≠ '[' :=
        char_ne_of_toNat_ne (by intro hx; rw [hx] at hlo hhi; revert hlo hhi; decide)
      have hne6 : c ≠ '\x7b' :=
        char_ne_of_toNat_ne (by intro hx; rw [hx] at hlo hhi; revert hlo hhi; decide)
      have hnum : parseNumber (c :: (cs ++ rest)) = some (.num n, rest) := by
        have hp := parseNumber_intChars n rest hrest
        rw [intChars, if_neg hn, hcons] at hp
        simpa using hp
      rw [hshape]
      simp only [parseValue]
      rw [skipWs_not_ws (isJsonWs_false_of_toNat (by omega))]
      simp [hne1, hne2, hne3, hne4, hne5, hne6, hdv, hnum]
  | str s =>
    have hshape : printChars (.str s) ++ rest
        = '"' :: ((s.data.map escapeChar).flatten ++ '"' :: rest) := by
      simp [printChars, escapeString]
    have hlen : s.data.length < ((s.data.map escapeChar).flatten ++ '"' :: rest).length + 1 := by
      have := length_le_flatten_escape s.data
      simp only [List.length_append, List.length_cons]
      omega
    have hbody := parseStringBody_escape s.data rest
      (((s.data.map escapeChar).flatten ++ '"' :: rest).length + 1) hlen
    rw [hshape]
    simp only [parseValue]
    rw [skipWs_not_ws (by decide)]
    simp [hbody, -List.length_append, -List.length_cons, -List.length_flatten]
  | arr items =>
    have hshape : printChars (.arr items) ++ rest = '[' :: (printItems items ++ ']' :: rest) := by
      simp [printChars]
    simp only [jweight] at h
    have hrec := parseItems_print items f (by omega) rest
    rw [hshape]
    simp only [parseValue]
    rw [skipWs_not_ws (by decide)]
    simp [hrec]
  | obj members =>
    have hshape : printChars (.obj members) ++ rest
        = '\x7b' :: (printMembers members ++ '\x7d' :: rest) := by
      simp [printChars]
    simp only [jweight] at h
    have hrec := parseMembers_print members f (by omega) rest
    rw [hshape]
    simp only [parseValue]
    rw [skipWs_not_ws (by decide)]
    simp [hrec]

/-- Reparsing a printed item list consumes it and the closing bracket. -/
theorem parseItems_print (l : List Json) (fuel : Nat) (h : jweightItems l ≤ fuel)
    (rest : List Char) :
    parseItems fuel (printItems l ++ ']' :: rest) = some (l, rest) := by
  obtain ⟨f, rfl⟩ : ∃ f, fuel = f + 1 := ⟨fuel - 1, by have := one_le_jweightItems l; omega⟩
  cases l with
  | nil => simp [printItems, parseItems, skipWs, isJsonWs]
  | cons v vs =>
    obtain ⟨c, cs0, hvc, hws, hbr, hcm⟩ := printChars_head v
    simp only [jweightItems] at h
    have hmax1 := Nat.le_max_left (jweight v) (jweightItems vs)
    have hmax2 := Nat.le_max_right (jweight v) (jweightItems vs)
    have hv := parseValue_print v f (by omega) (printItemsTail vs ++ ']' :: rest)
      (numberStop_printItemsTail vs rest)
    have ht := parseItemsTail_print vs f (by omega) rest
    have hshape : printItems (v :: vs) ++ ']' :: rest
        = c :: (cs0 ++ (printItemsTail vs ++ ']' :: rest)) := by
      simp [printItems, hvc]
    rw [hvc] at hv
    simp only [List.cons_append, List.append_assoc] at hv
    rw [hshape]
    simp only [parseItems]
    rw [skipWs_not_ws hws]
    simp [hbr, hv, ht]

/-- Reparsing the printed tail of an item list consumes it and the closing
bracket. -/
theorem parseItemsTail_print (l : List Json) (fuel : Nat) (h : jweightItems l ≤ fuel)
    (rest : List Char) :
    parseItemsTail fuel (printItemsTail l ++ ']' :: rest) = some (l, rest) := by
  obtain ⟨f, rfl⟩ : ∃ f, fuel = f + 1 := ⟨fuel - 1, by have := one_le_jweightItems l; omega⟩
  cases l with
  | nil => simp [printItemsTail, parseItemsTail, skipWs, isJsonWs]
  | cons v vs =>
    simp only [jweightItems] at h
    have hmax1 := Nat.le_max_left (jweight v) (jweightItems vs)
    have hmax2 := Nat.le_max_right (jweight v) (jweightItems vs)
    have hv := parseValue_print v f (by omega) (printItemsTail vs ++ ']' :: rest)
      (numberStop_printItemsTail vs rest)
    have ht := parseItemsTail_print vs f (by omega) rest
    have hshape : printItemsTail (v :: vs) ++ ']' :: rest
        = ',' :: (printChars v ++ (printItemsTail vs ++ ']' :: rest)) := by
      simp [printItemsTail]
    simp only [List.append_assoc] at hv
    rw [hshape]
    simp only [parseItemsTail]
    rw [skipWs_not_ws (by decide)]
    simp [hv, ht]

/-- Reparsing a printed member list consumes it and the closing brace. -/
theorem parseMembers_print (ms : List (String × Json)) (fuel : Nat)
    (h : jweightMembers ms ≤ fuel) (rest : List Char) :
    parseMembers fuel (printMembers ms ++ '\x7d' :: rest) = some (ms, rest) := by
  obtain ⟨f, rfl⟩ : ∃ f, fuel = f + 1 := ⟨fuel - 1, by have := one_le_jweightMembers ms; omega⟩
  cases ms with
  | nil => simp [printMembers, parseMembers, skipWs, isJsonWs]
  | cons m ms =>
    obtain ⟨k, v⟩ := m
    simp only [jweightMembers] at h
    have hmax1 := Nat.le_max_left (jweight v) (jweightMembers ms)
    have hmax2 := Nat.le_max_right (jweight v) (jweightMembers ms)
    have hv := parseValue_print v f (by omega) (printMembersTail ms ++ '\x7d' :: rest)
      (numberStop_printMembersTail ms rest)
    have ht := parseMembersTail_print ms f (by omega) rest
    have hshape : printMembers ((k, v) :: ms) ++ '\x7d' :: rest
        = '"' :: ((k.data.map escapeChar).flatten ++ '"' ::
            (':' :: (printChars v ++ (printMembersTail ms ++ '\x7d' :: rest)))) := by
      simp [printMembers, escapeString]
    have hlen : k.data.length < ((k.data.map escapeChar).flatten ++ '"' ::
        (':' :: (printChars v ++ (printMembersTail ms ++ '\x7d' :: rest)))).length + 1 := by
      have := length_le_flatten_escape k.data
      simp only [List.length_append, List.length_cons]
      omega
    have hbody := parseStringBody_escape k.data
      (':' :: (printChars v ++ (printMembersTail ms ++ '\x7d' :: rest))) _ hlen
    rw [hshape]
    simp only [parseMembers]
    rw [skipWs_not_ws (by decide)]
    simp only [List.append_assoc] at hv
    simp [hbody, skipWs_not_ws (by decide : isJsonWs ':' = false), hv, ht,
      -List.length_append, -List.length_cons, -List.length_flatten]

/-- Reparsing the printed tail of a member list consumes it and the closing
brace. -/
theorem parseMembersTail_print (ms : List (String × Json)) (fuel : Nat)
    (h : jweightMembers ms ≤ fuel) (rest : List Char) :
    parseMembersTail fuel (printMembersTail ms ++ '\x7d' :: rest) = some (ms, rest) := by
  obtain ⟨f, rfl⟩ : ∃ f, fuel = f + 1 := ⟨fuel - 1, by have := one_le_jweightMembers ms; omega⟩
  cases ms with
  | nil => simp [printMembersTail, parseMembersTail, skipWs, isJsonWs]
  | cons m ms =>
    obtain ⟨k, v⟩ := m
    simp only [jweightMembers] at h
    have hmax1 := Nat.le_max_left (jweight v) (jweightMembers ms)
    have hmax2 := Nat.le_max_right (jweight v) (jweightMembers ms)
    have hv := parseValue_print v f (by omega) (printMembersTail ms ++ '\x7d' :: rest)
      (numberStop_printMembersTail ms rest)
    have ht := parseMembersTail_print ms f (by omega) rest
    have hshape : printMembersTail ((k, v) :: ms) ++ '\x7d' :: rest
        = ',' :: ('"' :: ((k.data.map escapeChar).flatten ++ '"' ::
            (':' :: (printChars v ++ (printMembersTail ms ++ '\x7d' :: rest))))) := by
      simp [printMembersTail, escapeString]
    have hlen : k.data.length < ((k.data.map escapeChar).flatten ++ '"' ::
        (':' :: (printChars v ++ (printMembersTail ms ++ '\x7d' :: rest)))).length + 1 := by
      have := length_le_flatten_escape k.data
      simp only [List.length_append, List.length_cons]
      omega
    have hbody := parseStringBody_escape k.data
      (':' :: (printChars v ++ (printMembersTail ms ++ '\x7d' :: rest))) _ hlen
    rw [hshape]
    simp only [parseMembersTail]
    rw [skipWs_not_ws (by decide)]
    simp only [List.append_assoc] at hv
    simp [hbody, skipWs_not_ws (by decide : isJsonWs '"' = false),
      skipWs_not_ws (by decide : isJsonWs ':' = false), hv, ht,
      -List.length_append, -List.length_cons, -List.length_flatten]

end

theorem two_le_length_escapeString (s : String) : 2 ≤ (escapeString s).length := by
  simp [escapeString, List.length_append]

mutual

/-- The parser fuel bound is dominated by the printed length. -/
theorem jweight_le_length (v : Json) : jweight v ≤ (printChars v).length + 1 := by
  cases v with
  | null => simp [jweight, printChars]
  | bool b => cases b <;> simp [jweight, printChars]
  | num n => simp [jweight]
  | str s => simp [jweight]
  | arr items =>
    have := jweightItems_le_length items
    simp only [jweight, printChars, List.length_append, List.length_cons]
    omega
  | obj members =>
    have := jweightMembers_le_length members
    simp only [jweight, printChars, List.length_append, List.length_cons]
    omega

theorem jweightItems_le_length (l : List Json) :
    jweightItems l ≤ (printItems l).length + 2 := by
  cases l with
  | nil => simp [jweightItems, printItems]
  | cons v vs =>
    have h1 := jweight_le_length v
    have h2 := jweightItemsTail_le_length vs
    have hmax : max (jweight v) (jweightItems vs)
        ≤ (printChars v).length + (printItemsTail vs).length + 1 :=
      max_le (by omega) (by omega)
    simp only [jweightItems, printItems, List.length_append]
    omega

theorem jweightItemsTail_le_length (l : List Json) :
    jweightItems l ≤ (printItemsTail l).length + 1 := by
  cases l with
  | nil => simp [jweightItems, printItemsTail]
  | cons v vs =>
    have h1 := jweight_le_length v
    have h2 := jweightItemsTail_le_length vs
    have hmax : max (jweight v) (jweightItems vs)
        ≤ (printChars v).length + (printItemsTail vs).length + 1 :=
      max_le (by omega) (by omega)
    simp only [jweightItems, printItemsTail, List.length_append, List.length_cons]
    omega

theorem jweightMembers_le_length (ms : List (String × Json)) :
    jweightMembers ms ≤ (printMembers ms).length + 2 := by
  cases ms with
  | nil => simp [jweightMembers, printMembers]
  | cons m ms =>
    have h1 := jweight_le_length m.2
    have h2 := jweightMembersTail_le_length ms
    have h3 := two_le_length_escapeString m.1
    have hmax : max (jweight m.2) (jweightMembers ms)
        ≤ (printChars m.2).length + (printMembersTail ms).length + 1 :=
      max_le (by omega) (by omega)
    simp only [jweightMembers, printMembers, List.length_append, List.length_cons]
    omega

theorem jweightMembersTail_le_length (ms : List (String × Json)) :
    jweightMembers ms ≤ (printMembersTail ms).length + 1 := by
  cases ms with
  | nil => simp [jweightMembers, printMembersTail]
  | cons m ms =>
    have h1 := jweight_le_length m.2
    have h2 := jweightMembersTail_le_length ms
    have h3 := two_le_length_escapeString m.1
    have hmax : max (jweight m.2) (jweightMembers ms)
        ≤ (printChars m.2).length + (printMembersTail ms).length + 1 :=
      max_le (by omega) (by omega)
    simp only [jweightMembers, printMembersTail, List.length_append, List.length_cons]
    omega

end

/-- Printing and reparsing a JSON document is the identity. -/
theorem jsonParse_print (v : Json) : jsonParse (jsonToString v) = some v := by
  have hfuel : jweight v ≤ (printChars v).length + 1 := jweight_le_length v
  have h := parseValue_print v ((printChars v).length + 1) hfuel [] numberStop_nil
  simp only [List.append_nil] at h
  simp [jsonParse, jsonToString, h, skipWs, String.length]

theorem projectFromJson_toJson (p : Project) :
    projectFromJson (projectToJson p) = some p := rfl

theorem projectsFromJson_toJson (ps : List Project) :
    projectsFromJson (projectsToJson ps) = some ps := by
  induction ps with
  | nil => rfl
  | cons p ps ih =>
    simp only [projectsToJson, projectsFromJson, List.map_cons, decodeElems] at *
    simp [projectFromJson_toJson, ih]

theorem timeEntryFromJson_toJson (e : TimeEntry) :
    timeEntryFromJson (timeEntryToJson e) = some e := by
  obtain ⟨t, ty, d⟩ := e
  cases d <;> simp [timeEntryToJson, timeEntryFromJson, jLookup]

theorem entriesFromJson_toJson (es : List TimeEntry) :
    entriesFromJson (entriesToJson es) = some es := by
  induction es with
  | nil => rfl
  | cons e es ih =>
    simp only [entriesToJson, entriesFromJson, List.map_cons, decodeElems] at *
    simp [timeEntryFromJson_toJson, ih]

theorem mem_insertByTimestamp {a e : TimeEntry} {l : List TimeEntry} :
    a ∈ insertByTimestamp e l ↔ a = e ∨ a ∈ l := by
  induction l with
  | nil => simp [insertByTimestamp]
  | cons x xs ih =>
    by_cases h : e.timestamp ≤ x.timestamp
    · simp [insertByTimestamp, h]
    · simp [insertByTimestamp, h, ih]
      tauto

theorem insertByTimestamp_ne_nil (e : TimeEntry) (l : List TimeEntry) :
    insertByTimestamp e l ≠ [] := by
  cases l with
  | nil => simp [insertByTimestamp]
  | cons x xs =>
    by_cases h : e.timestamp ≤ x.timestamp <;> simp [insertByTimestamp, h]

theorem sortByTimestamp_perm (entries : List TimeEntry) :
    (sortByTimestamp entries).Perm entries := by
  induction entries with
  | nil => simp [sortByTimestamp]
  | cons e es ih =>
    have hstep : ∀ l : List TimeEntry, (insertByTimestamp e l).Perm (e :: l) := by
      intro l
      induction l with
      | nil => simp [insertByTimestamp]
      | cons x xs ihx =>
        by_cases h : e.timestamp ≤ x.timestamp
        · simp [insertByTimestamp, h]
        · simp only [insertByTimestamp, h, ite_false]
          exact (ihx.cons x).trans (List.Perm.swap e x xs)
    exact ((hstep (sortByTimestamp es)).trans (ih.cons e))

theorem sorted_insertByTimestamp {e : TimeEntry} {l : List TimeEntry}
    (h : l.Pairwise (fun a b => a.timestamp ≤ b.timestamp)) :
    (insertByTimestamp e l).Pairwise (fun a b => a.timestamp ≤ b.timestamp) := by
  induction l with
  | nil => simp [insertByTimestamp]
  | cons x xs ih =>
    rcases List.pairwise_cons.mp h with ⟨hx, hxs⟩
    by_cases hle : e.timestamp ≤ x.timestamp
    · rw [insertByTimestamp, if_pos hle]
      refine List.pairwise_cons.mpr ⟨?_, h⟩
      intro b hb
      rcases List.mem_cons.mp hb with rfl | hb
      · exact hle
      · exact le_trans hle (hx b hb)
    · rw [insertByTimestamp, if_neg hle]
      refine List.pairwise_cons.mpr ⟨?_, ih hxs⟩
      intro b hb
      rcases mem_insertByTimestamp.mp hb with rfl | hb
      · omega
      · exact hx b hb

theorem sortByTimestamp_sorted (entries : List TimeEntry) :
    (sortByTimestamp entries).Pairwise (fun a b => a.timestamp ≤ b.timestamp) := by
  induction entries with
  | nil => simp [sortByTimestamp]
  | cons e es ih => exact sorted_insertByTimestamp ih

theorem getLast?_max {l : List TimeEntry}
    (hs : l.Pairwise (fun a b => a.timestamp ≤ b.timestamp)) {last : TimeEntry}
    (hl : l.getLast? = some last) : ∀ a ∈ l, a.timestamp ≤ last.timestamp := by
  induction l with
  | nil => simp at hl
  | cons x xs ih =>
    rcases List.pairwise_cons.mp hs with ⟨hx, hxs⟩
    cases xs with
    | nil =>
      simp only [List.getLast?_singleton, Option.some_inj] at hl
      subst hl
      simp
    | cons y ys =>
      rw [List.getLast?_cons_cons] at hl
      intro a ha
      rcases List.mem_cons.mp ha with rfl | ha
      · have hmem : last ∈ y :: ys :=
          List.mem_of_mem_getLast? (by simp [Option.mem_def, hl])
        exact hx last hmem
      · exact ih hxs hl a ha

theorem totalLoop_trailing_start (es : List TimeEntry) (p : Option Int) (a : Int)
    (t : Int) (d : Option String) :
    totalLoop (es ++ [⟨t, "start", d⟩]) p a = totalLoop es p a := by
  induction es generalizing p a with
  | nil => simp [totalLoop]
  | cons e es ih =>
    by_cases h1 : e.entry_type = "start"
    · simp [totalLoop, h1, ih]
    · by_cases h2 : e.entry_type = "end"
      · cases p <;> simp [totalLoop, h1, h2, ih]
      · simp [totalLoop, h1, h2, ih]

/-- C1: `calculate_total_time` first sorts the entries ascending by
timestamp (the result is a permutation of the input, pairwise ordered by
timestamp), then scans once with `totalLoop`, which accumulates
`end.timestamp - start.timestamp` for each properly paired start-then-end;
a trailing `"start"` contributes nothing to the total, consecutive
`"start"` entries simply overwrite the pending start marker without
erroring, and on the concrete input
`[(100,start),(200,end),(300,start)]` the total is `100`. -/
theorem C1_calculate_total_time :
    (∀ entries : List TimeEntry,
      calculate_total_time entries = totalLoop (sortByTimestamp entries) none 0 ∧
      (sortByTimestamp entries).Perm entries ∧
      (sortByTimestamp entries).Pairwise (fun a b => a.timestamp ≤ b.timestamp)) ∧
    (∀ (es : List TimeEntry) (p : Option Int) (a t : Int) (d : Option String),
      totalLoop (es ++ [⟨t, "start", d⟩]) p a = totalLoop es p a) ∧
    (∀ (t1 t2 : Int) (d1 d2 : Option String) (es : List TimeEntry) (p : Option Int) (a : Int),
      totalLoop (⟨t1, "start", d1⟩ :: ⟨t2, "start", d2⟩ :: es) p a
        = totalLoop (⟨t2, "start", d2⟩ :: es) p a) ∧
    calculate_total_time [⟨100, "start", none⟩, ⟨200, "end", none⟩, ⟨300, "start", none⟩]
      = 100 := by
  refine ⟨?_, ?_, ?_, ?_⟩
  · intro entries
    exact ⟨rfl, sortByTimestamp_perm entries, sortByTimestamp_sorted entries⟩
  · intro es p a t d
    exact totalLoop_trailing_start es p a t d
  · intro t1 t2 d1 d2 es p a
    simp [totalLoop]
  · decide

/-- C2: `is_project_running` returns `false` on the empty list, and on a
non-empty list returns `true` exactly when the entry with the maximum
timestamp (the last after the ascending stable sort) has type
`"start"`. -/
theorem C2_is_project_running :
    is_project_running [] = false ∧
    ∀ entries : List TimeEntry, entries ≠ [] →
      ∃ last, (sortByTimestamp entries).getLast? = some last ∧
        (∀ e ∈ entries, e.timestamp ≤ last.timestamp) ∧
        is_project_running entries = (last.entry_type == "start") := by
  constructor
  · rfl
  · intro entries hne
    have hperm := sortByTimestamp_perm entries
    have hsne : sortByTimestamp entries ≠ [] := by
      intro h0
      rw [h0] at hperm
      exact hne (hperm.symm.eq_nil)
    obtain ⟨last, hlast⟩ : ∃ last, (sortByTimestamp entries).getLast? = some last := by
      cases hsort : sortByTimestamp entries with
      | nil => exact absurd hsort hsne
      | cons x xs => simp [List.getLast?_eq_getLast_of_ne_nil]
    refine ⟨last, hlast, ?_, ?_⟩
    · intro e he
      exact getLast?_max (sortByTimestamp_sorted entries) hlast e (hperm.mem_iff.mpr he)
    · rw [is_project_running, if_neg (by simp [hne]), hlast]

/-- Witness for C2 at the concrete one-entry list `[(100, start)]`. -/
theorem C2_witness :
    ∃ last, (sortByTimestamp [⟨100, "start", none⟩]).getLast? = some last ∧
      (∀ e ∈ [(⟨100, "start", none⟩ : TimeEntry)], e.timestamp ≤ last.timestamp) ∧
      is_project_running [⟨100, "start", none⟩] = (last.entry_type == "start") :=
  C2_is_project_running.2 [⟨100, "start", none⟩] (by decide)

/-- C7: for every JSON document, the read-side decoding (JSON parse with
raw-string fallback, as in `get_key`) of the write-side encoding (the
serialized-to-string value transmitted by `set_key`/`update_key`) is the
identity. -/
theorem C7_decode_encode (v : Json) :
    decodeValue (Json.str (jsonToString v)) = v := by
  simp [decodeValue, jsonParse_print]

/-- C6: when the transport reports 404 on `get` (explicitly, or because
the key is absent from an honest store), `get_key` returns the empty
array and never an error; any other non-2xx status yields an `ApiError`
carrying that status. -/
theorem C6_get_key_404 :
    (∀ (f : Faults) (st : Store) (key : String),
      f.getF key = some 404 → get_key f st key = .ok (.arr [])) ∧
    (∀ (f : Faults) (st : Store) (key : String),
      f.getF key = none → storeGet st key = none → get_key f st key = .ok (.arr [])) ∧
    (∀ (f : Faults) (st : Store) (key : String) (status : Nat),
      f.getF key = some status → status ≠ 404 →
      get_key f st key = .error (.apiError "get" status)) := by
  refine ⟨?_, ?_, ?_⟩
  · intro f st key h
    simp [get_key, h]
  · intro f st key h h'
    simp [get_key, h, h']
  · intro f st key status h h'
    simp [get_key, h, h']

/-- Witness for C6 at concrete transports and the empty store. -/
theorem C6_witness :
    get_key faultsGet404 [] "projects" = .ok (.arr []) ∧
    get_key noFaults [] "projects" = .ok (.arr []) ∧
    get_key faultsGet500 [] "projects" = .error (.apiError "get" 500) :=
  ⟨C6_get_key_404.1 faultsGet404 [] "projects" rfl,
   C6_get_key_404.2.1 noFaults [] "projects" rfl rfl,
   C6_get_key_404.2.2 faultsGet500 [] "projects" 500 rfl (by decide)⟩

/-- C8: `load_cached_token` yields no credential when the file read
fails, when the content does not parse as a cache record, or when the
stored expiry is not strictly after the current instant; and whenever it
does yield a token, the parsed record's expiry is strictly in the
future.  The function is total (it never raises). -/
theorem C8_load_cached_token :
    (∀ now : Int, load_cached_token none now = none) ∧
    (∀ (content : String) (now : Int),
      (jsonParse content).bind tokenCacheFromJson = none →
      load_cached_token (some content) now = none) ∧
    (∀ (content : String) (now : Int) (cache : TokenCacheFile),
      (jsonParse content).bind tokenCacheFromJson = some cache →
      cache.expires_at ≤ now →
      load_cached_token (some content) now = none) ∧
    (∀ (content : String) (now : Int) (token : String),
      load_cached_token (some content) now = some token →
      ∃ cache, (jsonParse content).bind tokenCacheFromJson = some cache ∧
        cache.token = token ∧ now < cache.expires_at) := by
  refine ⟨?_, ?_, ?_, ?_⟩
  · intro now
    rfl
  · intro content now h
    simp [load_cached_token, h]
  · intro content now cache h h'
    simp [load_cached_token, h]
    omega
  · intro content now token h
    rw [load_cached_token] at h
    match hp : (jsonParse content).bind tokenCacheFromJson with
    | none => rw [hp] at h; exact absurd h (by simp)
    | some cache =>
      rw [hp] at h
      by_cases hexp : now < cache.expires_at
      · simp only [hexp, if_true, ite_true] at h
        exact ⟨cache, rfl, by simpa using h, hexp⟩
      · simp [hexp] at h

/-- C5: adding a project whose slug is already present in the stored list
fails with `DuplicateSlug` and performs no write: the store is returned
unchanged. -/
theorem C5_add_project_duplicate :
    ∀ (f : Faults) (st : Store) (project : Project) (ps : List Project),
      get_projects f st = .ok ps →
      (∃ q ∈ ps, q.slug = project.slug) →
      add_project f st project = (.error (.duplicateSlug project.slug), st) := by
  intro f st project ps hget hdup
  obtain ⟨q, hq, hslug⟩ := hdup
  have hany : ps.any (fun p => p.slug == project.slug) = true :=
    List.any_eq_true.mpr ⟨q, hq, by simp [hslug]⟩
  simp [add_project, hget, hany]

/-- Witness for C5: a store holding one project with slug `"a"`, and an
attempt to add a different project with the same slug. -/
theorem C5_witness :
    add_project noFaults
        [("projects", jsonToString (projectsToJson [⟨"Alpha", "a", ""⟩]))]
        ⟨"Beta", "a", "x"⟩
      = (.error (.duplicateSlug "a"),
         [("projects", jsonToString (projectsToJson [⟨"Alpha", "a", ""⟩]))]) :=
  C5_add_project_duplicate noFaults
    [("projects", jsonToString (projectsToJson [⟨"Alpha", "a", ""⟩]))]
    ⟨"Beta", "a", "x"⟩ [⟨"Alpha", "a", ""⟩] rfl
    ⟨⟨"Alpha", "a", ""⟩, by decide, rfl⟩

/-- Witness for C8: the absent file, an unparsable file, a parsable but
expired credential (checked at instant 100), and a still-valid credential
(checked at instant 0). -/
theorem C8_witness :
    load_cached_token none 0 = none ∧
    load_cached_token (some "x") 0 = none ∧
    load_cached_token (some "\x7b\"expires_at\":10,\"token\":\"t\"\x7d") 100 = none ∧
    (∃ cache,
      (jsonParse "\x7b\"expires_at\":10,\"token\":\"t\"\x7d").bind tokenCacheFromJson
        = some cache ∧ cache.token = "t" ∧ (0 : Int) < cache.expires_at) :=
  ⟨C8_load_cached_token.1 0,
   C8_load_cached_token.2.1 "x" 0 rfl,
   C8_load_cached_token.2.2.1 "\x7b\"expires_at\":10,\"token\":\"t\"\x7d" 100 ⟨"t", 10⟩ rfl
     (by decide),
   C8_load_cached_token.2.2.2 "\x7b\"expires_at\":10,\"token\":\"t\"\x7d" 0 "t" rfl⟩

/-- Decoding a value stored through the write-side encoding recovers it
(the composition proved by `jsonParse_print`). -/
theorem decodeValue_encoded (v : Json) : decodeValue (Json.str (jsonToString v)) = v := by
  simp [decodeValue, jsonParse_print]

/-- A fault-free read of a key holding an encoded entry list yields that
list. -/
theorem get_time_entries_encoded (st : Store) (slug : String) (es : List TimeEntry)
    (h : storeGet st (timeKey slug) = some (jsonToString (entriesToJson es))) :
    get_time_entries noFaults st slug = .ok es := by
  simp [get_time_entries, get_key, noFaults, h, decodeValue_encoded, entriesFromJson_toJson]

/-- A fault-free read of a `projects` key holding an encoded project list
yields that list. -/
theorem get_projects_encoded (st : Store) (ps : List Project)
    (h : storeGet st "projects" = some (jsonToString (projectsToJson ps))) :
    get_projects noFaults st = .ok ps := by
  simp [get_projects, get_key, noFaults, h, decodeValue_encoded, projectsFromJson_toJson]

/-- C9: with a fault-free transport, deleting by timestamp removes every
entry with that timestamp (the whole list is filtered) before writing the
list back; it fails with `NotFound` exactly when no entry matches, and on
that failure the store is unchanged. -/
theorem C9_delete_time_entry_by_timestamp :
    ∀ (st : Store) (slug : String) (t : Int) (es : List TimeEntry),
      get_time_entries noFaults st slug = .ok es →
      ((∃ e ∈ es, e.timestamp = t) →
        delete_time_entry_by_timestamp noFaults st slug t
          = (.ok (), storeSet st (timeKey slug)
              (jsonToString (entriesToJson (es.filter (fun e => e.timestamp != t)))))) ∧
      ((∀ e ∈ es, e.timestamp ≠ t) →
        delete_time_entry_by_timestamp noFaults st slug t
          = (.error (.notFound slug), st)) := by
  intro st slug t es hget
  constructor
  · intro hex
    have hlt : (es.filter (fun e => e.timestamp != t)).length < es.length := by
      refine List.length_filter_lt_length_iff_exists.mpr ?_
      obtain ⟨e, he, hts⟩ := hex
      exact ⟨e, he, by simp [hts]⟩
    have hne : ((es.filter (fun e => e.timestamp != t)).length == es.length) = false := by
      simp only [beq_eq_false_iff_ne, ne_eq]
      omega
    unfold delete_time_entry_by_timestamp
    rw [hget]
    simp only [hne, Bool.false_eq_true, if_false, ite_false]
    simp [update_key, noFaults]
  · intro hall
    have heq : es.filter (fun e => e.timestamp != t) = es :=
      List.filter_eq_self.mpr (fun a ha => by simpa using hall a ha)
    unfold delete_time_entry_by_timestamp
    rw [hget]
    simp only [heq, beq_self_eq_true, if_true, ite_true]

/-- Witness for C9: a stored list with two entries at timestamp 100; both
are removed by one delete. -/
theorem C9_witness :
    delete_time_entry_by_timestamp noFaults
        [("projects/p", jsonToString (entriesToJson
          [⟨100, "start", none⟩, ⟨100, "end", none⟩, ⟨200, "start", none⟩]))] "p" 100
      = (.ok (), storeSet
          [("projects/p", jsonToString (entriesToJson
            [⟨100, "start", none⟩, ⟨100, "end", none⟩, ⟨200, "start", none⟩]))]
          (timeKey "p")
          (jsonToString (entriesToJson
            ([(⟨100, "start", none⟩ : TimeEntry), ⟨100, "end", none⟩,
              ⟨200, "start", none⟩].filter (fun e => e.timestamp != 100))))) :=
  (C9_delete_time_entry_by_timestamp
    [("projects/p", jsonToString (entriesToJson
      [⟨100, "start", none⟩, ⟨100, "end", none⟩, ⟨200, "start", none⟩]))] "p" 100
    [⟨100, "start", none⟩, ⟨100, "end", none⟩, ⟨200, "start", none⟩]
    (get_time_entries_encoded _ "p" _ rfl)).1
    ⟨⟨100, "start", none⟩, by decide, rfl⟩

theorem setFirstDescription_spec (es : List TimeEntry) (t : Int) (d : Option String)
    (es' : List TimeEntry) (h : setFirstDescription es t d = some es') :
    ∃ j e, es[j]? = some e ∧ e.timestamp = t ∧
      (∀ i, i < j → ∀ e', es[i]? = some e' → e'.timestamp ≠ t) ∧
      es' = es.set j ⟨e.timestamp, e.entry_type, d⟩ := by
  induction es generalizing es' with
  | nil => simp [setFirstDescription] at h
  | cons e es ih =>
    by_cases ht : e.timestamp = t
    · rw [setFirstDescription, if_pos ht] at h
      refine ⟨0, e, by simp, ht, by omega, ?_⟩
      simp only [Option.some_inj] at h
      subst h
      rfl
    · rw [setFirstDescription, if_neg ht] at h
      match hrec : setFirstDescription es t d with
      | none => rw [hrec] at h; cases h
      | some es2 =>
        rw [hrec] at h
        simp only [Option.some_inj] at h
        subst h
        obtain ⟨j, e0, hg, hts, hfirst, hset⟩ := ih es2 hrec
        refine ⟨j + 1, e0, by simpa using hg, hts, ?_, by simp [hset]⟩
        intro i hi e' hg'
        cases i with
        | zero =>
          simp only [List.getElem?_cons_zero, Option.some_inj] at hg'
          subst hg'
          exact ht
        | succ i =>
          exact hfirst i (by omega) e' (by simpa using hg')

/-- C10: with a fault-free transport, updating by timestamp writes back
the stored list with only the description of the first entry (in stored
order) whose timestamp matches replaced; that entry's timestamp and type,
and every other entry, are unchanged. -/
theorem C10_update_time_entry_by_timestamp :
    ∀ (st : Store) (slug : String) (t : Int) (d : Option String)
      (es es' : List TimeEntry),
      get_time_entries noFaults st slug = .ok es →
      setFirstDescription es t d = some es' →
      (update_time_entry_by_timestamp noFaults st slug t d
        = (.ok (), storeSet st (timeKey slug) (jsonToString (entriesToJson es')))) ∧
      ∃ j e, es[j]? = some e ∧ e.timestamp = t ∧
        (∀ i, i < j → ∀ e', es[i]? = some e' → e'.timestamp ≠ t) ∧
        es' = es.set j ⟨e.timestamp, e.entry_type, d⟩ := by
  intro st slug t d es es' hget hset
  constructor
  · unfold update_time_entry_by_timestamp
    rw [hget]
    simp only [hset]
    simp [update_key, noFaults]
  · exact setFirstDescription_spec es t d es' hset

/-- Witness for C10: a stored list with two entries at timestamp 100; the
first one's description alone is replaced. -/
theorem C10_witness :
    (update_time_entry_by_timestamp noFaults
        [("projects/p", jsonToString (entriesToJson
          [⟨100, "start", none⟩, ⟨100, "end", none⟩]))] "p" 100 (some "hi")
      = (.ok (), storeSet
          [("projects/p", jsonToString (entriesToJson
            [⟨100, "start", none⟩, ⟨100, "end", none⟩]))]
          (timeKey "p")
          (jsonToString (entriesToJson [⟨100, "start", some "hi"⟩, ⟨100, "end", none⟩])))) ∧
    ∃ j e, [(⟨100, "start", none⟩ : TimeEntry), ⟨100, "end", none⟩][j]? = some e ∧
      e.timestamp = 100 ∧
      (∀ i, i < j → ∀ e',
        [(⟨100, "start", none⟩ : TimeEntry), ⟨100, "end", none⟩][i]? = some e' →
        e'.timestamp ≠ 100) ∧
      [(⟨100, "start", some "hi"⟩ : TimeEntry), ⟨100, "end", none⟩]
        = [(⟨100, "start", none⟩ : TimeEntry), ⟨100, "end", none⟩].set j
            ⟨e.timestamp, e.entry_type, some "hi"⟩ :=
  C10_update_time_entry_by_timestamp
    [("projects/p", jsonToString (entriesToJson [⟨100, "start", none⟩, ⟨100, "end", none⟩]))]
    "p" 100 (some "hi")
    [⟨100, "start", none⟩, ⟨100, "end", none⟩]
    [⟨100, "start", some "hi"⟩, ⟨100, "end", none⟩]
    (get_time_entries_encoded _ "p" _ rfl) (by decide)

theorem storeGet_storeSet_same (st : Store) (k v : String) :
    storeGet (storeSet st k v) k = some v := by
  induction st with
  | nil => simp [storeSet, storeGet]
  | cons p st ih =>
    by_cases hp : (p.1 == k) = true
    · simp [storeSet, storeGet, hp]
    · simp [storeSet, storeGet, hp, ih]

theorem storeGet_storeSet_other (st : Store) (k v k' : String) (h : k' ≠ k) :
    storeGet (storeSet st k v) k' = storeGet st k' := by
  have hkk : (k == k') = false := by simp [Ne.symm h]
  induction st with
  | nil => simp [storeSet, storeGet, hkk]
  | cons p st ih =>
    by_cases hp : (p.1 == k) = true
    · have hpk' : (p.1 == k') = false := by
        have : p.1 = k := by simpa using hp
        simp [this, Ne.symm h]
      simp [storeSet, storeGet, hp, hkk, hpk']
    · by_cases hm : (p.1 == k') = true
      · simp [storeSet, storeGet, hp, hm]
      · simp [storeSet, storeGet, hp, hm, ih]

theorem storeGet_storeErase_same (st : Store) (k : String) :
    storeGet (storeErase st k) k = none := by
  induction st with
  | nil => simp [storeErase, storeGet]
  | cons p st ih =>
    by_cases hp : (p.1 == k) = true
    · simp [storeErase, hp, ih]
    · simp [storeErase, storeGet, hp, ih]

theorem storeGet_storeErase_other (st : Store) (k k' : String) (h : k' ≠ k) :
    storeGet (storeErase st k) k' = storeGet st k' := by
  induction st with
  | nil => simp [storeErase]
  | cons p st ih =>
    by_cases hp : (p.1 == k) = true
    · have hpk' : (p.1 == k') = false := by
        have : p.1 = k := by simpa using hp
        simp [this, Ne.symm h]
      simp [storeErase, storeGet, hp, hpk', ih]
    · by_cases hm : (p.1 == k') = true
      · simp [storeErase, storeGet, hp, hm]
      · simp [storeErase, storeGet, hp, hm, ih]

theorem timeKey_injective {a b : String} (h : timeKey a = timeKey b) : a = b := by
  have hdata := congrArg String.data h
  simp only [timeKey, String.data_append, List.append_cancel_left_eq] at hdata
  exact String.ext hdata

theorem timeKey_ne_projects (slug : String) : timeKey slug ≠ "projects" := by
  intro h
  have hlen := congrArg String.length h
  rw [timeKey, String.length_append] at hlen
  rw [(by decide : ("projects/" : String).length = 9),
    (by decide : ("projects" : String).length = 8)] at hlen
  omega

theorem entriesFromJson_eq_nil {v : Json} (h : entriesFromJson v = some []) :
    v = .arr [] := by
  cases v with
  | arr items =>
    cases items with
    | nil => rfl
    | cons x xs =>
      exfalso
      simp only [entriesFromJson, decodeElems] at h
      split at h <;> simp_all
  | null => exact absurd h (by simp [entriesFromJson])
  | bool b => exact absurd h (by simp [entriesFromJson])
  | num n => exact absurd h (by simp [entriesFromJson])
  | str s => exact absurd h (by simp [entriesFromJson])
  | obj ms => exact absurd h (by simp [entriesFromJson])

theorem storeGet_isSome_of_entries_ne_nil (st : Store) (slug : String)
    (es : List TimeEntry) (hes : get_time_entries noFaults st slug = .ok es)
    (hne : es ≠ []) : ∃ s, storeGet st (timeKey slug) = some s := by
  rw [get_time_entries, get_key] at hes
  simp only [noFaults] at hes
  match hsg : storeGet st (timeKey slug) with
  | some s => exact ⟨s, rfl⟩
  | none =>
    rw [hsg] at hes
    simp [entriesFromJson, decodeElems] at hes
    exact absurd hes hne

/-- The successful rename path of `update_project` when the old key holds
a non-empty entry list: set the new key, delete the old key, then write
the updated projects list. -/
theorem update_project_rename_nonempty (st : Store) (old_slug : String) (p : Project)
    (ps : List Project) (i : Nat) (es : List TimeEntry)
    (hps : get_projects noFaults st = .ok ps)
    (hidx : ps.findIdx? (fun q => q.slug == old_slug) = some i)
    (hnew : old_slug ≠ p.slug)
    (hcol : ps.enum.any (fun ip => ip.1 != i && ip.2.slug == p.slug) = false)
    (hes : get_time_entries noFaults st old_slug = .ok es)
    (hesne : es ≠ []) :
    update_project noFaults st old_slug p
      = (.ok (), storeSet (storeErase (storeSet st (timeKey p.slug)
          (jsonToString (entriesToJson es))) (timeKey old_slug)) "projects"
          (jsonToString (projectsToJson (ps.set i p)))) := by
  obtain ⟨s0, hs0⟩ := storeGet_isSome_of_entries_ne_nil st old_slug es hes hesne
  have hkeys : timeKey old_slug ≠ timeKey p.slug := fun hx => hnew (timeKey_injective hx)
  have hempty : es.isEmpty = false := by
    cases es with
    | nil => exact absurd rfl hesne
    | cons a l => rfl
  have hsg1 : storeGet (storeSet st (timeKey p.slug) (jsonToString (entriesToJson es)))
      (timeKey old_slug) = some s0 := by
    rw [storeGet_storeSet_other _ _ _ _ hkeys]
    exact hs0
  unfold update_project
  rw [hps, hes]
  simp [hidx, hnew, hcol, hempty, set_key, delete_key, update_key, noFaults, hsg1]

/-- The successful rename path of `update_project` when the old key's
entry list is empty: no migration happens and only the projects list is
written. -/
theorem update_project_rename_empty (st : Store) (old_slug : String) (p : Project)
    (ps : List Project) (i : Nat)
    (hps : get_projects noFaults st = .ok ps)
    (hidx : ps.findIdx? (fun q => q.slug == old_slug) = some i)
    (hnew : old_slug ≠ p.slug)
    (hcol : ps.enum.any (fun ip => ip.1 != i && ip.2.slug == p.slug) = false)
    (hes : get_time_entries noFaults st old_slug = .ok []) :
    update_project noFaults st old_slug p
      = (.ok (), storeSet st "projects" (jsonToString (projectsToJson (ps.set i p)))) := by
  unfold update_project
  rw [hps, hes]
  simp [hidx, hnew, hcol, update_key, noFaults]

theorem get_key_congr (st1 st2 : Store) (k : String)
    (h : storeGet st1 k = storeGet st2 k) :
    get_key noFaults st1 k = get_key noFaults st2 k := by
  rw [get_key, get_key, h]

theorem get_key_empty_of_entries_nil (st : Store) (slug : String)
    (hes : get_time_entries noFaults st slug = .ok []) :
    get_key noFaults st (timeKey slug) = .ok (.arr []) := by
  rw [get_time_entries] at hes
  match hg : get_key noFaults st (timeKey slug) with
  | .error e => rw [hg] at hes; cases hes
  | .ok v =>
    rw [hg] at hes
    dsimp only at hes
    match hv : entriesFromJson v with
    | none => rw [hv] at hes; cases hes
    | some es =>
      rw [hv] at hes
      obtain rfl : es = [] := by simpa using hes
      rw [entriesFromJson_eq_nil hv]

/-- The rename path of `update_project` when the creation of the new
time-entry key is refused: the error propagates unchanged and the store
is untouched. -/
theorem update_project_set_fault (f : Faults) (st : Store) (old_slug : String)
    (p : Project) (ps : List Project) (i : Nat) (es : List TimeEntry) (s : Nat)
    (hps : get_projects f st = .ok ps)
    (hidx : ps.findIdx? (fun q => q.slug == old_slug) = some i)
    (hnew : old_slug ≠ p.slug)
    (hcol : ps.enum.any (fun ip => ip.1 != i && ip.2.slug == p.slug) = false)
    (hes : get_time_entries f st old_slug = .ok es) (hesne : es ≠ [])
    (hset : f.setF (timeKey p.slug) = some s) :
    update_project f st old_slug p = (.error (.apiError "set" s), st) := by
  have hempty : es.isEmpty = false := by
    cases es with
    | nil => exact absurd rfl hesne
    | cons a l => rfl
  unfold update_project
  rw [hps, hes]
  simp [hidx, hnew, hcol, hempty, set_key, hset]

/-- The rename path of `update_project` when the deletion of the old
time-entry key is refused with a status other than 404: the error is
re-wrapped and propagated; the new key was already written, the projects
list was not. -/
theorem update_project_delete_fault (f : Faults) (st : Store) (old_slug : String)
    (p : Project) (ps : List Project) (i : Nat) (es : List TimeEntry) (s : Nat)
    (hps : get_projects f st = .ok ps)
    (hidx : ps.findIdx? (fun q => q.slug == old_slug) = some i)
    (hnew : old_slug ≠ p.slug)
    (hcol : ps.enum.any (fun ip => ip.1 != i && ip.2.slug == p.slug) = false)
    (hes : get_time_entries f st old_slug = .ok es) (hesne : es ≠ [])
    (hset : f.setF (timeKey p.slug) = none)
    (hdel : f.deleteF (timeKey old_slug) = some s)
    (hs : s ≠ 404) :
    update_project f st old_slug p
      = (.error (.wrapped "Failed to delete old time entries" (.apiError "delete" s)),
         storeSet st (timeKey p.slug) (jsonToString (entriesToJson es))) := by
  have hempty : es.isEmpty = false := by
    cases es with
    | nil => exact absurd rfl hesne
    | cons a l => rfl
  have h404 : mentions404 (.apiError "delete" s) = false := by
    simp only [mentions404, beq_eq_false_iff_ne, ne_eq]
    exact hs
  unfold update_project
  rw [hps, hes]
  simp [hidx, hnew, hcol, hempty, set_key, hset, delete_key, hdel, h404]

/-- C4 (amended): with a fault-free transport, renaming a project moves
the time entries and deletes the old key when the old entry list is
non-empty (old key absent afterwards, a get on it yields `[]`, the new
key holds the encoded entries); when the old entry list is empty no
migration happens — the old key is not deleted — but a subsequent get on
the old key still yields `[]`; and the projects-list write is last: a
refused creation of the new key propagates the set error with the store
untouched, and a refused (non-404) deletion of the old key propagates the
wrapped delete error with the stored projects value unchanged. -/
theorem C4_update_project_rename :
    (∀ (st : Store) (old_slug : String) (p : Project) (ps : List Project) (i : Nat)
        (es : List TimeEntry),
      get_projects noFaults st = .ok ps →
      ps.findIdx? (fun q => q.slug == old_slug) = some i →
      old_slug ≠ p.slug →
      ps.enum.any (fun ip => ip.1 != i && ip.2.slug == p.slug) = false →
      get_time_entries noFaults st old_slug = .ok es →
      es ≠ [] →
      update_project noFaults st old_slug p
        = (.ok (), storeSet (storeErase (storeSet st (timeKey p.slug)
            (jsonToString (entriesToJson es))) (timeKey old_slug)) "projects"
            (jsonToString (projectsToJson (ps.set i p)))) ∧
      storeGet (storeSet (storeErase (storeSet st (timeKey p.slug)
          (jsonToString (entriesToJson es))) (timeKey old_slug)) "projects"
          (jsonToString (projectsToJson (ps.set i p)))) (timeKey old_slug) = none ∧
      get_key noFaults (storeSet (storeErase (storeSet st (timeKey p.slug)
          (jsonToString (entriesToJson es))) (timeKey old_slug)) "projects"
          (jsonToString (projectsToJson (ps.set i p)))) (timeKey old_slug)
        = .ok (.arr []) ∧
      storeGet (storeSet (storeErase (storeSet st (timeKey p.slug)
          (jsonToString (entriesToJson es))) (timeKey old_slug)) "projects"
          (jsonToString (projectsToJson (ps.set i p)))) (timeKey p.slug)
        = some (jsonToString (entriesToJson es))) ∧
    (∀ (st : Store) (old_slug : String) (p : Project) (ps : List Project) (i : Nat),
      get_projects noFaults st = .ok ps →
      ps.findIdx? (fun q => q.slug == old_slug) = some i →
      old_slug ≠ p.slug →
      ps.enum.any (fun ip => ip.1 != i && ip.2.slug == p.slug) = false →
      get_time_entries noFaults st old_slug = .ok [] →
      update_project noFaults st old_slug p
        = (.ok (), storeSet st "projects" (jsonToString (projectsToJson (ps.set i p)))) ∧
      get_key noFaults
          (storeSet st "projects" (jsonToString (projectsToJson (ps.set i p))))
          (timeKey old_slug) = .ok (.arr [])) ∧
    (∀ (f : Faults) (st : Store) (old_slug : String) (p : Project) (ps : List Project)
        (i : Nat) (es : List TimeEntry) (s : Nat),
      get_projects f st = .ok ps →
      ps.findIdx? (fun q => q.slug == old_slug) = some i →
      old_slug ≠ p.slug →
      ps.enum.any (fun ip => ip.1 != i && ip.2.slug == p.slug) = false →
      get_time_entries f st old_slug = .ok es → es ≠ [] →
      f.setF (timeKey p.slug) = some s →
      update_project f st old_slug p = (.error (.apiError "set" s), st)) ∧
    (∀ (f : Faults) (st : Store) (old_slug : String) (p : Project) (ps : List Project)
        (i : Nat) (es : List TimeEntry) (s : Nat),
      get_projects f st = .ok ps →
      ps.findIdx? (fun q => q.slug == old_slug) = some i →
      old_slug ≠ p.slug →
      ps.enum.any (fun ip => ip.1 != i && ip.2.slug == p.slug) = false →
      get_time_entries f st old_slug = .ok es → es ≠ [] →
      f.setF (timeKey p.slug) = none →
      f.deleteF (timeKey old_slug) = some s → s ≠ 404 →
      update_project f st old_slug p
        = (.error (.wrapped "Failed to delete old time entries" (.apiError "delete" s)),
           storeSet st (timeKey p.slug) (jsonToString (entriesToJson es))) ∧
      storeGet (storeSet st (timeKey p.slug) (jsonToString (entriesToJson es))) "projects"
        = storeGet st "projects") := by
  refine ⟨?_, ?_, ?_, ?_⟩
  · intro st old_slug p ps i es hps hidx hnew hcol hes hesne
    have hmain := update_project_rename_nonempty st old_slug p ps i es hps hidx hnew hcol hes hesne
    have hop : timeKey old_slug ≠ "projects" := timeKey_ne_projects old_slug
    have hnp : timeKey p.slug ≠ "projects" := timeKey_ne_projects p.slug
    have hkeys : timeKey p.slug ≠ timeKey old_slug :=
      fun hx => hnew (timeKey_injective hx).symm
    refine ⟨hmain, ?_, ?_, ?_⟩
    · rw [storeGet_storeSet_other _ _ _ _ hop, storeGet_storeErase_same]
    · rw [get_key]
      simp only [noFaults]
      rw [storeGet_storeSet_other _ _ _ _ hop, storeGet_storeErase_same]
    · rw [storeGet_storeSet_other _ _ _ _ hnp, storeGet_storeErase_other _ _ _ hkeys,
        storeGet_storeSet_same]
  · intro st old_slug p ps i hps hidx hnew hcol hes
    refine ⟨update_project_rename_empty st old_slug p ps i hps hidx hnew hcol hes, ?_⟩
    have h2 : storeGet (storeSet st "projects" (jsonToString (projectsToJson (ps.set i p))))
        (timeKey old_slug) = storeGet st (timeKey old_slug) :=
      storeGet_storeSet_other _ _ _ _ (timeKey_ne_projects old_slug)
    rw [get_key_congr _ _ _ h2, get_key_empty_of_entries_nil st old_slug hes]
  · intro f st old_slug p ps i es s hps hidx hnew hcol hes hesne hset
    exact update_project_set_fault f st old_slug p ps i es s hps hidx hnew hcol hes hesne hset
  · intro f st old_slug p ps i es s hps hidx hnew hcol hes hesne hset hdel hs
    refine ⟨update_project_delete_fault f st old_slug p ps i es s hps hidx hnew hcol hes
      hesne hset hdel hs, ?_⟩
    exact storeGet_storeSet_other _ _ _ _ (Ne.symm (timeKey_ne_projects p.slug))

/-- Counterexample to C4 as stated: the store holds project `a` whose
time-entry key is PRESENT holding the encoded empty list `"[]"`.
Renaming `a` to `b` succeeds, but the old key `projects/a` is NOT left
absent — it is still present (holding `"[]"`) after the rename, because
the code migrates and deletes only when the old entry list is non-empty.
The claim's "leaves the old key absent" is therefore false at this
input. -/
theorem C4_counterexample :
    update_project noFaults
        [("projects", jsonToString (projectsToJson [⟨"Alpha", "a", ""⟩])),
         ("projects/a", "[]")] "a" ⟨"Beta", "b", ""⟩
      = (.ok (), storeSet
          [("projects", jsonToString (projectsToJson [⟨"Alpha", "a", ""⟩])),
           ("projects/a", "[]")]
          "projects" (jsonToString (projectsToJson [⟨"Beta", "b", ""⟩]))) ∧
    storeGet (storeSet
        [("projects", jsonToString (projectsToJson [⟨"Alpha", "a", ""⟩])),
         ("projects/a", "[]")]
        "projects" (jsonToString (projectsToJson [⟨"Beta", "b", ""⟩])))
      (timeKey "a") = some "[]" := by
  constructor
  · exact update_project_rename_empty
      [("projects", jsonToString (projectsToJson [⟨"Alpha", "a", ""⟩])),
       ("projects/a", "[]")] "a" ⟨"Beta", "b", ""⟩ [⟨"Alpha", "a", ""⟩] 0
      (get_projects_encoded _ _ rfl) rfl (by decide) rfl rfl
  · rw [storeGet_storeSet_other _ _ _ _ (timeKey_ne_projects "a")]
    rfl

/-- Witness for C4 (amended), non-empty rename path: project `a` with one
stored entry is renamed to `b`; the theorem's conclusions are instantiated
at this store. -/
theorem C4_witness :
    update_project noFaults
        [("projects", jsonToString (projectsToJson [⟨"Alpha", "a", ""⟩])),
         ("projects/a", jsonToString (entriesToJson [⟨100, "start", none⟩]))]
        "a" ⟨"Beta", "b", ""⟩
      = (.ok (), storeSet (storeErase (storeSet
          [("projects", jsonToString (projectsToJson [⟨"Alpha", "a", ""⟩])),
           ("projects/a", jsonToString (entriesToJson [⟨100, "start", none⟩]))]
          (timeKey "b") (jsonToString (entriesToJson [⟨100, "start", none⟩])))
          (timeKey "a")) "projects"
          (jsonToString (projectsToJson ([(⟨"Alpha", "a", ""⟩ : Project)].set 0
            ⟨"Beta", "b", ""⟩)))) ∧
    storeGet (storeSet (storeErase (storeSet
        [("projects", jsonToString (projectsToJson [⟨"Alpha", "a", ""⟩])),
         ("projects/a", jsonToString (entriesToJson [⟨100, "start", none⟩]))]
        (timeKey "b") (jsonToString (entriesToJson [⟨100, "start", none⟩])))
        (timeKey "a")) "projects"
        (jsonToString (projectsToJson ([(⟨"Alpha", "a", ""⟩ : Project)].set 0
          ⟨"Beta", "b", ""⟩)))) (timeKey "a") = none ∧
    get_key noFaults (storeSet (storeErase (storeSet
        [("projects", jsonToString (projectsToJson [⟨"Alpha", "a", ""⟩])),
         ("projects/a", jsonToString (entriesToJson [⟨100, "start", none⟩]))]
        (timeKey "b") (jsonToString (entriesToJson [⟨100, "start", none⟩])))
        (timeKey "a")) "projects"
        (jsonToString (projectsToJson ([(⟨"Alpha", "a", ""⟩ : Project)].set 0
          ⟨"Beta", "b", ""⟩)))) (timeKey "a") = .ok (.arr []) ∧
    storeGet (storeSet (storeErase (storeSet
        [("projects", jsonToString (projectsToJson [⟨"Alpha", "a", ""⟩])),
         ("projects/a", jsonToString (entriesToJson [⟨100, "start", none⟩]))]
        (timeKey "b") (jsonToString (entriesToJson [⟨100, "start", none⟩])))
        (timeKey "a")) "projects"
        (jsonToString (projectsToJson ([(⟨"Alpha", "a", ""⟩ : Project)].set 0
          ⟨"Beta", "b", ""⟩)))) (timeKey "b")
      = some (jsonToString (entriesToJson [⟨100, "start", none⟩])) :=
  C4_update_project_rename.1
    [("projects", jsonToString (projectsToJson [⟨"Alpha", "a", ""⟩])),
     ("projects/a", jsonToString (entriesToJson [⟨100, "start", none⟩]))]
    "a" ⟨"Beta", "b", ""⟩ [⟨"Alpha", "a", ""⟩] 0 [⟨100, "start", none⟩]
    (get_projects_encoded _ _ rfl) rfl (by decide) rfl
    (get_time_entries_encoded _ "a" _ rfl) (by decide)

/-- C3 (amended): for the cited Domain Layer operations, failures of the
underlying write-side Key-Value calls are mapped into domain errors or
propagated — `add_project` returns the `set`/`update` error unchanged,
`delete_time_entry_by_timestamp` returns the `update` error unchanged,
and `delete_project` propagates a non-404 `delete` failure wrapped with
context, the status preserved — but a transport failure of the
operation's initial read is silently discarded: `add_project` then
behaves as if the stored list were empty and proceeds to write. -/
theorem C3_error_propagation :
    (∀ (f : Faults) (st : Store) (p : Project) (s : Nat),
      get_projects f st = .ok [] →
      f.setF "projects" = some s →
      add_project f st p = (.error (.apiError "set" s), st)) ∧
    (∀ (f : Faults) (st : Store) (p : Project) (ps : List Project) (s : Nat),
      get_projects f st = .ok ps → ps ≠ [] →
      ps.any (fun q => q.slug == p.slug) = false →
      f.updateF "projects" = some s →
      add_project f st p = (.error (.apiError "update" s), st)) ∧
    (∀ (f : Faults) (st : Store) (slug : String) (t : Int) (es : List TimeEntry) (s : Nat),
      get_time_entries f st slug = .ok es →
      (∃ e ∈ es, e.timestamp = t) →
      f.updateF (timeKey slug) = some s →
      delete_time_entry_by_timestamp f st slug t = (.error (.apiError "update" s), st)) ∧
    (∀ (f : Faults) (st : Store) (slug : String) (ps : List Project) (s : Nat),
      get_projects f st = .ok ps →
      (∃ q ∈ ps, q.slug = slug) →
      f.deleteF (timeKey slug) = some s → s ≠ 404 →
      delete_project f st slug
        = (.error (.wrapped "Failed to delete time entries" (.apiError "delete" s)), st)) ∧
    (∀ (f : Faults) (st : Store) (p : Project) (s : Nat),
      f.getF "projects" = some s → s ≠ 404 →
      add_project f st p = set_key f st "projects" (projectsToJson [p])) := by
  refine ⟨?_, ?_, ?_, ?_, ?_⟩
  · intro f st p s hps hset
    unfold add_project
    rw [hps]
    simp [set_key, hset]
  · intro f st p ps s hps hne hany hupd
    have hlen : ((ps ++ [p]).length == 1) = false := by
      simp only [List.length_append, List.length_cons, List.length_nil,
        beq_eq_false_iff_ne, ne_eq]
      have : ps.length ≠ 0 := fun h0 => hne (List.length_eq_zero.mp h0)
      omega
    unfold add_project
    rw [hps]
    simp only [hany, Bool.false_eq_true, if_false, ite_false, hlen]
    simp [update_key, hupd]
  · intro f st slug t es s hes hex hupd
    have hlt : (es.filter (fun e => e.timestamp != t)).length < es.length := by
      refine List.length_filter_lt_length_iff_exists.mpr ?_
      obtain ⟨e, he, hts⟩ := hex
      exact ⟨e, he, by simp [hts]⟩
    have hne : ((es.filter (fun e => e.timestamp != t)).length == es.length) = false := by
      simp only [beq_eq_false_iff_ne, ne_eq]
      omega
    unfold delete_time_entry_by_timestamp
    rw [hes]
    simp only [hne, Bool.false_eq_true, if_false, ite_false]
    simp [update_key, hupd]
  · intro f st slug ps s hps hex hdel hs
    have hlt : (ps.filter (fun q => q.slug != slug)).length < ps.length := by
      refine List.length_filter_lt_length_iff_exists.mpr ?_
      obtain ⟨q, hq, hqs⟩ := hex
      exact ⟨q, hq, by simp [hqs]⟩
    have hne : ((ps.filter (fun q => q.slug != slug)).length == ps.length) = false := by
      simp only [beq_eq_false_iff_ne, ne_eq]
      omega
    have h404 : mentions404 (.apiError "delete" s) = false := by
      simp only [mentions404, beq_eq_false_iff_ne, ne_eq]
      exact hs
    unfold delete_project
    rw [hps]
    simp only [hne, Bool.false_eq_true, if_false, ite_false]
    simp [delete_key, hdel, h404]
  · intro f st p s hget hs
    have hps : get_projects f st = .error (.apiError "get" s) := by
      rw [get_projects, get_key, hget]
      simp only [beq_eq_false_iff_ne.mpr hs, Bool.false_eq_true, if_false, ite_false]
    unfold add_project
    rw [hps]
    simp

/-- Counterexample to C3 as stated: the store holds a projects list with
one project, but the transport fails the `get` on `projects` with
status 500.  `add_project` silently discards that failure
(`unwrap_or_default`), treats the list as empty, finds no duplicate, and
— since the list "was empty" — creates `projects` with `set`, returning
success and overwriting the stored list with a one-element list.  The
transport failure was neither mapped to a domain error nor returned. -/
theorem C3_counterexample :
    add_project faultsGet500
        [("projects", jsonToString (projectsToJson [⟨"Alpha", "a", ""⟩]))]
        ⟨"Beta", "b", ""⟩
      = (.ok (), [("projects", jsonToString (projectsToJson [⟨"Beta", "b", ""⟩]))]) := by
  rfl

/-- Witness for C3 (amended) at concrete transports: a refused `set` on
the empty store propagates as an API error, and a refused `get` makes
`add_project` behave as a first-time `set` of the singleton list. -/
theorem C3_witness :
    add_project faultsSet500 [] ⟨"Beta", "b", ""⟩
      = (.error (.apiError "set" 500), []) ∧
    add_project faultsGet500 [] ⟨"Beta", "b", ""⟩
      = set_key faultsGet500 [] "projects" (projectsToJson [⟨"Beta", "b", ""⟩]) :=
  ⟨C3_error_propagation.1 faultsSet500 [] ⟨"Beta", "b", ""⟩ 500 rfl rfl,
   C3_error_propagation.2.2.2.2 faultsGet500 [] ⟨"Beta", "b", ""⟩ 500 rfl (by decide)⟩
